import Mathlib

/-!
Flitter language engine: shallow embedding and verification.

This file embeds the core of the flitter language engine — the stack-based
virtual machine (`vm.pyx`), the AST compiler and partial evaluator
(`tree.pyx`) — and proves properties of the embedded definitions.

Modelling conventions, used throughout:

* `model.pyx` (the `Vector`/`Node` implementation) is not among the sources;
  only its declarations (`model.pxd`) and the spec are.  Wherever a `Vector`
  or `Node` method is needed it is modelled from the spec, and its doc
  comment says so.  64-bit doubles are modelled as integers, which is exact
  for every value exercised below; no claim below depends on rounding,
  `NaN`, or infinities.
* Python dicts are modelled as insertion-ordered association lists with
  update-in-place semantics; Python sets of strings as duplicate-free lists
  in insertion order.
* Mutable `Node` objects are modelled by a heap (`List NodeData`) indexed by
  node ids, threaded through the interpreter, so that aliasing and in-place
  mutation behave as in the source.
* Fatal conditions (C `assert` failures, unrecognised instructions, jumps
  out of the program) are `Except.error` results, distinct from the errors
  the VM records in `context.errors`.
* Unbounded recursion (the interpreter loop, node copying) is driven by an
  explicit fuel parameter; running out of fuel is its own distinct fatal
  result, and every concrete computation below is given ample fuel.
-/

/-- Python dict lookup (`PyDict_GetItem`) on an association list. -/
def dictGet {α : Type} (d : List (String × α)) (k : String) : Option α :=
  match d.find? (fun kv => kv.1 == k) with
  | some kv => some kv.2
  | none => none

/-- Python dict store (`PyDict_SetItem`): replace in place if the key is
present, else append, preserving insertion order. -/
def dictSet {α : Type} (d : List (String × α)) (k : String) (v : α) :
    List (String × α) :=
  match d with
  | [] => [(k, v)]
  | kv :: rest =>
    if kv.1 == k then (k, v) :: rest else kv :: dictSet rest k v

/-- Python `dict.update`: store every pair of the second dict into the
first, in order. -/
def dictUpdate {α : Type} (d e : List (String × α)) : List (String × α) :=
  e.foldl (fun acc kv => dictSet acc kv.1 kv.2) d

/-- Python dict delete (`PyDict_DelItem`): remove the key, preserving the
order of the remaining entries. -/
def dictDel {α : Type} (d : List (String × α)) (k : String) :
    List (String × α) :=
  match d with
  | [] => []
  | kv :: rest => if kv.1 == k then rest else kv :: dictDel rest k

/-- Python dict membership (`PyDict_Contains`). -/
def dictHas {α : Type} (d : List (String × α)) (k : String) : Bool :=
  (d.find? (fun kv => kv.1 == k)).isSome

/-- Python set insertion (`PySet_Add`) on a duplicate-free list. -/
def setAdd (s : List String) (x : String) : List String :=
  if x ∈ s then s else s ++ [x]

/-- Tree-query predicate (`Query`, declared in `model.pxd`). -/
inductive Query where
  | mk (kind : Option String) (tags : List String) (strict : Bool)
      (stop : Bool) (first : Bool) (subquery : Option Query)
      (altquery : Option Query)
deriving BEq

def Query.first : Query → Bool
  | .mk _ _ _ _ f _ _ => f

mutual

/-- An element of an object `Vector`: a boxed double, a string, a reference
to a mutable `Node` in the heap, a user `Function` value, a compiled
sub-program, or an opaque host callable (identified by name, with its
`context_func` flag). -/
inductive Obj where
  | num (x : Int)
  | str (s : String)
  | node (id : Nat)
  | func (f : FuncVal)
  | subprog (p : Program)
  | builtin (name : String) (ctxFunc : Bool)
deriving BEq

/-- The universal runtime value (`Vector`): either a densely packed numeric
array (`objects is None`) or a list of objects. -/
inductive Vec where
  | nums (xs : List Int)
  | objs (xs : List Obj)
deriving BEq

/-- A first-class `Function` value built by the `Func` instruction. -/
inductive FuncVal where
  | mk (name : String) (parameters : List String) (defaults : List Vec)
      (program : Program) (lvars : List Vec) (rootPath : Option String)
deriving BEq

/-- One VM instruction, tagged by opcode, with the payload variants of the
source `Instruction` subclasses.  Jump-family instructions carry the label
and the link-time resolved relative offset (0 before linking). -/
inductive Instr where
  | add
  | append (count : Int)
  | appendRoot
  | attribute (name : String)
  | beginFor
  | branchFalse (label : Int) (offset : Int)
  | branchTrue (label : Int) (offset : Int)
  | call (count : Int) (names : Option (List String))
  | callFast (fn : Obj) (count : Int)
  | clearNodeScope
  | compose (count : Int)
  | drop (count : Int)
  | dup
  | endFor
  | endForCompose
  | eq
  | floorDiv
  | func (name : String) (parameters : List String)
  | ge
  | gt
  | importNames (names : List String)
  | indexLiteral (i : Int)
  | jump (label : Int) (offset : Int)
  | label (label : Int)
  | le
  | literal (value : Vec)
  | literalNode (id : Nat)
  | literalNodes (value : Vec)
  | localDrop (count : Int)
  | localLoad (offset : Int)
  | localPush (count : Int)
  | lookup
  | lookupLiteral (value : Vec)
  | lt
  | mod
  | mul
  | mulAdd
  | name (s : String)
  | ne
  | neg
  | next (label : Int) (offset : Int) (count : Int)
  | not
  | pos
  | pow
  | pragma (name : String)
  | prepend
  | pushNext (label : Int) (offset : Int)
  | range
  | search (query : Query)
  | setNodeScope
  | slice
  | sliceLiteral (value : Vec)
  | storeGlobal (name : String)
  | sub
  | tag (name : String)
  | trueDiv
  | xor
deriving BEq

/-- A `Program`: the instruction list, the linked flag, the next fresh
label, and the source path.  (The per-program `stack`/`lvars` used for
module execution always start and are asserted empty, so they are supplied
fresh at each execution instead of being stored.) -/
inductive Program where
  | mk (instructions : List Instr) (linked : Bool) (nextLabel : Int)
      (path : Option String)
deriving BEq

end

def Program.instructions : Program → List Instr
  | .mk is _ _ _ => is

def Program.linked : Program → Bool
  | .mk _ l _ _ => l

def Program.nextLabel : Program → Int
  | .mk _ _ n _ => n

def Program.path : Program → Option String
  | .mk _ _ _ p => p

def Program.withInstructions : Program → List Instr → Program
  | .mk _ l n p, is => .mk is l n p

/-- `Program.__cinit__`: empty instruction list, unlinked, labels from 1. -/
def Program.new (path : Option String := none) : Program :=
  .mk [] false 1 path

def Vec.length : Vec → Nat
  | .nums xs => xs.length
  | .objs xs => xs.length

/-- `objects is None` for this vector. -/
def Vec.isNums : Vec → Bool
  | .nums _ => true
  | .objs _ => false

/-- The canonical empty vector `null_` (length 0, numeric storage). -/
def nullV : Vec := .nums []

/-- The canonical `true_` vector. -/
def trueV : Vec := .nums [1]

/-- The canonical `false_` vector. -/
def falseV : Vec := .nums [0]

/-- The canonical `minusone_` vector. -/
def minusoneV : Vec := .nums [-1]

/-- The elements of a vector as objects, boxing packed numbers
(`PyFloat_FromDouble`). -/
def Vec.toObjs : Vec → List Obj
  | .nums xs => xs.map Obj.num
  | .objs xs => xs

/-- Modelled from the spec: `Vector.item(i)` (declared in `model.pxd`,
implementation absent) returns the one-element vector holding element `i`,
keeping numeric packing, and `null` when `i` is out of range. -/
def Vec.item (v : Vec) (i : Int) : Vec :=
  if 0 ≤ i ∧ i < (v.length : Int) then
    match v with
    | .nums xs => .nums [xs.getD i.toNat 0]
    | .objs xs =>
      match xs.get? i.toNat with
      | some o => .objs [o]
      | none => nullV
  else nullV

/-- Modelled from the spec: §3 — a vector is truthy iff it is non-empty and
at least one element is a non-zero number, a non-empty string, or another
live object (`Vector.as_bool`, implementation absent). -/
def Obj.truthy : Obj → Bool
  | .num x => x != 0
  | .str s => s ≠ ""
  | _ => true

def Vec.as_bool (v : Vec) : Bool :=
  v.toObjs.any Obj.truthy

/-- Modelled from the spec: `Vector.as_string` (implementation absent) —
string coercion; only single-string vectors are exercised below, every
other vector is modelled as the empty string. -/
def Vec.as_string : Vec → String
  | .objs [.str s] => s
  | _ => ""

/-- Modelled from the spec: §3 — numeric and object vectors are equal when
their element sequences coerce equal; functions, sub-programs and host
callables compare by object identity, which is not representable, so they
compare unequal.  Node references compare by identity (their heap id). -/
def Obj.beq : Obj → Obj → Bool
  | .num a, .num b => a == b
  | .str a, .str b => a == b
  | .node a, .node b => a == b
  | _, _ => false

def Vec.beq (a b : Vec) : Bool :=
  let xs := a.toObjs
  let ys := b.toObjs
  xs.length == ys.length && (List.zip xs ys).all fun p => p.1.beq p.2

/-! ## The VM value stacks

The source `VectorStack` is a growable array with `top` pointing at the
last used slot; it is modelled as a `List Vec` whose head is the top.  The
`cdef inline` helpers at the bottom of `vm.pyx` C-`assert` their
preconditions; those asserts are fatal, so the helpers return
`Except String _` with the assert message.  (A negative count never occurs:
the compiler only emits non-negative counts, and on a negative count the
source stack arithmetic is undefined behaviour, modelled as the same
assert failure.) -/

/-- `drop(stack, n)`: pop and discard the top `n` entries. -/
def stackDrop (stack : List Vec) (n : Int) : Except String (List Vec) :=
  if 0 ≤ n ∧ n ≤ (stack.length : Int) then .ok (stack.drop n.toNat)
  else .error "Stack empty"

/-- `push(stack, vector)`. -/
def stackPush (stack : List Vec) (v : Vec) : List Vec :=
  v :: stack

/-- `pop(stack)`. -/
def stackPop (stack : List Vec) : Except String (Vec × List Vec) :=
  match stack with
  | v :: rest => .ok (v, rest)
  | [] => .error "Stack empty"

/-- `peek(stack)`. -/
def stackPeek (stack : List Vec) : Except String Vec :=
  match stack with
  | v :: _ => .ok v
  | [] => .error "Stack empty"

/-- `peek_at(stack, offset)`: read the entry `offset` below the top. -/
def stackPeekAt (stack : List Vec) (offset : Int) : Except String Vec :=
  if 0 ≤ offset ∧ offset < (stack.length : Int) then
    match stack.get? offset.toNat with
    | some v => .ok v
    | none => .error "Stack empty"
  else .error "Stack empty"

/-- `poke(stack, vector)`: replace the top entry. -/
def stackPoke (stack : List Vec) (v : Vec) : Except String (List Vec) :=
  match stack with
  | _ :: rest => .ok (v :: rest)
  | [] => .error "Stack empty"

/-- `poke_at(stack, offset, vector)`: replace the entry `offset` below the
top. -/
def stackPokeAt (stack : List Vec) (offset : Int) (v : Vec) :
    Except String (List Vec) :=
  if 0 ≤ offset ∧ offset < (stack.length : Int) then
    .ok (stack.set offset.toNat v)
  else .error "Stack empty"

/-- `pop_tuple(stack, n)`: pop the top `n` entries; the returned tuple is
ordered bottom-up (index 0 is the deepest of the `n`). -/
def stackPopTuple (stack : List Vec) (n : Int) :
    Except String (List Vec × List Vec) :=
  if 0 ≤ n ∧ n ≤ (stack.length : Int) then
    .ok ((stack.take n.toNat).reverse, stack.drop n.toNat)
  else .error "Stack empty"

/-- `pop_dict(stack, keys)`: pop one entry per key; keys pair with the
popped entries bottom-up. -/
def stackPopDict (stack : List Vec) (keys : List String) :
    Except String (List (String × Vec) × List Vec) :=
  let n := keys.length
  if n ≤ stack.length then
    .ok (((List.zip keys (stack.take n).reverse).foldl
          (fun acc kv => dictSet acc kv.1 kv.2) []),
         stack.drop n)
  else .error "Stack empty"

/-- `pop_composed(stack, m)`: pop the top `m` vectors and compose them into
one, preserving numeric packing when every input is numeric, boxing into a
single object vector otherwise; 0 vectors (or a total length of 0) give
`null`, and 1 vector is returned unchanged. -/
def pop_composed (stack : List Vec) (m : Int) :
    Except String (Vec × List Vec) :=
  if 0 ≤ m ∧ m ≤ (stack.length : Int) then
    if m == 1 then
      match stack with
      | v :: rest => .ok (v, rest)
      | [] => .error "Stack empty"
    else if m == 0 then
      .ok (nullV, stack)
    else
      let vs := (stack.take m.toNat).reverse
      let rest := stack.drop m.toNat
      let numeric := vs.all Vec.isNums
      let n := (vs.map Vec.length).sum
      if n == 0 then
        .ok (nullV, rest)
      else if numeric then
        .ok (.nums ((vs.map fun v =>
          match v with | .nums xs => xs | .objs _ => []).flatten), rest)
      else
        .ok (.objs ((vs.map Vec.toObjs).flatten), rest)
  else .error "Stack empty"

/-! ## Nodes and the node heap -/

/-- A mutable scene-graph node (`Node`, declared in `model.pxd`): kind, tag
set, insertion-ordered attribute map with its copy-on-write `shared` flag,
parent link and child list (the source's sibling links traversed in
document order). -/
structure NodeData where
  kind : String
  tags : List String
  attributes : List (String × Vec)
  attributesShared : Bool
  parent : Option Nat
  children : List Nat
deriving BEq

/-- The heap of nodes; a node id is an index into this list. -/
abbrev Heap := List NodeData

def heapGet (heap : Heap) (id : Nat) : Option NodeData :=
  heap.get? id

def heapSet (heap : Heap) (id : Nat) (nd : NodeData) : Heap :=
  heap.set id nd

/-- Modelled from the spec: §3/§9 — `Node.copy` (implementation absent)
copies the subtree; the copy and the original share the attribute map, both
marked shared so the first mutation of either clones it.  The copy of the
root is detached (no parent).  Fuel bounds the tree depth. -/
def nodeCopy (fuel : Nat) (heap : Heap) (id : Nat) : Option (Heap × Nat) :=
  match fuel with
  | 0 => none
  | fuel + 1 =>
    match heapGet heap id with
    | none => none
    | some nd =>
      let newId := heap.length
      let heap := (heapSet heap id { nd with attributesShared := true }) ++
        [{ nd with attributesShared := true, parent := none, children := [] }]
      let step := fun (acc : Option (Heap × List Nat)) (childId : Nat) =>
        match acc with
        | none => none
        | some (h, kids) =>
          match nodeCopy fuel h childId with
          | none => none
          | some (h', kidId) =>
            match heapGet h' kidId with
            | none => none
            | some kd =>
              some (heapSet h' kidId { kd with parent := some newId },
                    kids ++ [kidId])
      match nd.children.foldl step (some (heap, [])) with
      | none => none
      | some (h, kids) =>
        match heapGet h newId with
        | none => none
        | some cd => some (heapSet h newId { cd with children := kids }, newId)

/-- Modelled from the spec: §9 — `Node.append` (implementation absent)
attaches a child at the end of the child list; a child that already has a
parent is copied first. -/
def nodeAppend (fuel : Nat) (heap : Heap) (parentId childId : Nat) :
    Option Heap :=
  match heapGet heap childId, heapGet heap parentId with
  | some cd, some _ =>
    match cd.parent with
    | some _ =>
      match nodeCopy fuel heap childId with
      | none => none
      | some (h, cId) =>
        match heapGet h cId, heapGet h parentId with
        | some cd', some pd =>
          some (heapSet (heapSet h cId { cd' with parent := some parentId })
            parentId { pd with children := pd.children ++ [cId] })
        | _, _ => none
    | none =>
      match heapGet heap parentId with
      | some pd =>
        some (heapSet (heapSet heap childId { cd with parent := some parentId })
          parentId { pd with children := pd.children ++ [childId] })
      | none => none
  | _, _ => none

/-- Modelled from the spec: §4.2 — `Node.insert` (implementation absent)
prepends a child, otherwise as `nodeAppend`. -/
def nodeInsert (fuel : Nat) (heap : Heap) (parentId childId : Nat) :
    Option Heap :=
  match heapGet heap childId with
  | some cd =>
    match cd.parent with
    | some _ =>
      match nodeCopy fuel heap childId with
      | none => none
      | some (h, cId) =>
        match heapGet h cId, heapGet h parentId with
        | some cd', some pd =>
          some (heapSet (heapSet h cId { cd' with parent := some parentId })
            parentId { pd with children := cId :: pd.children })
        | _, _ => none
    | none =>
      match heapGet heap parentId with
      | some pd =>
        some (heapSet (heapSet heap childId { cd with parent := some parentId })
          parentId { pd with children := childId :: pd.children })
      | none => none
  | none => none

/-- Modelled from the spec: `Vector.copynodes` (implementation absent)
returns a vector in which every node element is replaced by a copy; a
vector without node elements is returned unchanged. -/
def Vec.copynodes (fuel : Nat) (heap : Heap) : Vec → Option (Heap × Vec)
  | .nums xs => some (heap, .nums xs)
  | .objs xs =>
    let step := fun (acc : Option (Heap × List Obj)) (o : Obj) =>
      match acc with
      | none => none
      | some (h, os) =>
        match o with
        | .node id =>
          match nodeCopy fuel h id with
          | none => none
          | some (h', id') => some (h', os ++ [.node id'])
        | _ => some (h, os ++ [o])
    match xs.foldl step (some (heap, [])) with
    | none => none
    | some (h, os) => some (h, .objs os)

/-- Modelled from the spec: §4.2 — `Node._select` (implementation absent):
a node matches a query when its kind matches (if given) and its tags
include all (`strict`) or any of the query's tags (all of an empty tag
set); matches are collected in depth-first document order, `stop` prevents
descent into matches, `first` stops the whole search at the first match,
`subquery` is applied to a match's descendants instead of collecting it,
and `altquery` is a parallel alternative. -/
def nodeMatches (nd : NodeData) : Query → Bool
  | .mk kind tags strict _ _ _ _ =>
    (match kind with
     | some k => nd.kind == k
     | none => true) &&
    (if tags.isEmpty then true
     else if strict then tags.all (fun t => t ∈ nd.tags)
     else tags.any (fun t => t ∈ nd.tags))

def nodeSelect (fuel : Nat) (heap : Heap) (id : Nat) (q : Query)
    (acc : List Obj) : List Obj × Bool :=
  match fuel with
  | 0 => (acc, true)
  | fuel + 1 =>
    match heapGet heap id with
    | none => (acc, false)
    | some nd =>
      match q with
      | .mk kind tags strict stop first subquery altquery =>
        let matched := nodeMatches nd (.mk kind tags strict stop first
          subquery altquery)
        let descendInto := fun (acc : List Obj) (q' : Query) =>
          nd.children.foldl
            (fun (st : List Obj × Bool) c =>
              if st.2 then st else nodeSelect fuel heap c q' st.1)
            (acc, false)
        let st :=
          if matched then
            match subquery with
            | some sq => descendInto acc sq
            | none =>
              let acc := acc ++ [Obj.node id]
              if first then (acc, true)
              else if stop then (acc, false)
              else descendInto acc (.mk kind tags strict stop first
                subquery altquery)
          else descendInto acc (.mk kind tags strict stop first subquery
            altquery)
        if st.2 then st
        else
          match altquery with
          | some aq => nodeSelect fuel heap id aq st.1
          | none => st

/-! ## Modelled vector arithmetic

`model.pyx` is absent; the operations below follow §4.1 of the spec, on the
integer carrier.  True division and power are modelled as their integer
counterparts — no claim below exercises them. -/

/-- §4.1 broadcasting: pairwise element-wise, cycling the shorter operand
when the longer's length is a multiple of the shorter's; otherwise
`null`.  Object operands give `null`. -/
def Vec.zipCycle (a b : Vec) (op : Int → Int → Int) : Vec :=
  match a, b with
  | .nums xs, .nums ys =>
    let n := xs.length
    let m := ys.length
    let l := max n m
    if n > 0 && m > 0 && l % n == 0 && l % m == 0 then
      .nums ((List.range l).map fun i => op (xs.getD (i % n) 0) (ys.getD (i % m) 0))
    else nullV
  | _, _ => nullV

def Vec.add (a b : Vec) : Vec := a.zipCycle b (· + ·)

def Vec.sub (a b : Vec) : Vec := a.zipCycle b (· - ·)

def Vec.mul (a b : Vec) : Vec := a.zipCycle b (· * ·)

def Vec.truediv (a b : Vec) : Vec := a.zipCycle b Int.tdiv

def Vec.floordiv (a b : Vec) : Vec := a.zipCycle b Int.fdiv

def Vec.modV (a b : Vec) : Vec := a.zipCycle b Int.emod

def Vec.powV (a b : Vec) : Vec :=
  a.zipCycle b fun x y => if 0 ≤ y then x ^ y.toNat else 0

/-- §4.1 fused multiply-add: `self*a + b` with the same broadcasting. -/
def Vec.mul_add (v a b : Vec) : Vec := (v.mul a).add b

def Vec.neg : Vec → Vec
  | .nums xs => .nums (xs.map (-·))
  | .objs _ => nullV

/-- `Vector.pos`: identity on numeric vectors, `null` on object vectors. -/
def Vec.posV : Vec → Vec
  | .nums xs => .nums xs
  | .objs _ => nullV

/-- §4.1: `eq`/`ne` yield length-1 `true`/`false`. -/
def Vec.eqV (a b : Vec) : Vec := if a.beq b then trueV else falseV

def Vec.neV (a b : Vec) : Vec := if a.beq b then falseV else trueV

/-- §4.1 lexicographic element comparison; mixed numeric/object element
pairs are incomparable and make the whole comparison false. -/
def Obj.cmp : Obj → Obj → Option Ordering
  | .num a, .num b => some (compare a b)
  | .str a, .str b => some (compare a b)
  | _, _ => none

def lexCmp : List Obj → List Obj → Option Ordering
  | [], [] => some .eq
  | [], _ :: _ => some .lt
  | _ :: _, [] => some .gt
  | x :: xs, y :: ys =>
    match x.cmp y with
    | some .eq => lexCmp xs ys
    | some o => some o
    | none => none

def Vec.ltV (a b : Vec) : Vec :=
  if lexCmp a.toObjs b.toObjs == some .lt then trueV else falseV

def Vec.gtV (a b : Vec) : Vec :=
  if lexCmp a.toObjs b.toObjs == some .gt then trueV else falseV

def Vec.leV (a b : Vec) : Vec :=
  if lexCmp a.toObjs b.toObjs == some .lt ||
     lexCmp a.toObjs b.toObjs == some .eq then trueV else falseV

def Vec.geV (a b : Vec) : Vec :=
  if lexCmp a.toObjs b.toObjs == some .gt ||
     lexCmp a.toObjs b.toObjs == some .eq then trueV else falseV

/-- §4.1 slicing: numeric index picks floored elements, out-of-range picks
the element-type zero; the result is numeric iff the source is; a
non-numeric index gives `null`. -/
def Vec.sliceV (v idx : Vec) : Vec :=
  match idx with
  | .nums is =>
    match v with
    | .nums xs => .nums (is.map fun i =>
        if 0 ≤ i ∧ i < (xs.length : Int) then xs.getD i.toNat 0 else 0)
    | .objs xs => .objs (is.map fun i =>
        if 0 ≤ i ∧ i < (xs.length : Int) then xs.getD i.toNat (.num 0)
        else .num 0)
  | .objs _ => nullV

/-- §4.1 `fill_range(start, stop, step)`: a numeric vector of length
`max(0, ceil((stop-start)/step))`; a zero step, or a non-scalar argument,
gives `null`. -/
def fill_range (startv stopv stepv : Vec) : Vec :=
  match startv, stopv, stepv with
  | .nums [a], .nums [b], .nums [c] =>
    if c == 0 then nullV
    else
      let count := max 0 (-(Int.fdiv (-(b - a)) c))
      .nums ((List.range count.toNat).map fun i => a + i * c)
  | _, _, _ => nullV

/-- §4.1 composition of a list of vectors (`Vector._compose`), preserving
numeric packing when all inputs are numeric. -/
def vecCompose (vs : List Vec) : Vec :=
  if vs.all Vec.isNums then
    .nums ((vs.map fun v =>
      match v with | .nums xs => xs | .objs _ => []).flatten)
  else .objs ((vs.map Vec.toObjs).flatten)

/-- Modelled from the spec: `Vector.intern` (implementation absent) returns
a canonical equal instance; sharing is semantics-preserving, so it is the
identity here. -/
def Vec.intern (v : Vec) : Vec := v

/-- Modelled from the spec: `Vector.repr` (implementation absent); only
used for the text of `debug` log entries, which no claim inspects. -/
def Obj.reprS : Obj → String
  | .num x => toString x
  | .str s => s
  | .node id => "Node#" ++ toString id
  | .func _ => "(function)"
  | .subprog _ => "(program)"
  | .builtin n _ => n

def Vec.reprS (v : Vec) : String :=
  String.intercalate ";" (v.toObjs.map Obj.reprS)

/-! ## Run context -/

/-- Modelled from the spec: §3 — the per-run `Context` (`context.pyx` is
absent): variables, pragmas, error and log sets, the state mapping, the
graph root node, the source path, the chain of enclosing import paths
(the `parent` links, kept as their paths, which is all the VM reads), and
the partial evaluator's optional `unbound` set. -/
structure Ctx where
  vars : List (String × Vec)
  pragmas : List (String × Vec)
  errors : List String
  logs : List String
  stateD : Option (List (Vec × Vec))
  graphRoot : Nat
  path : Option String
  parentPaths : List (Option String)
  unbound : Option (List String)

/-- `PyDict_GetItem` on the state dict, with the spec's coercing vector
equality on keys. -/
def stateGet (st : List (Vec × Vec)) (k : Vec) : Option Vec :=
  match st.find? (fun kv => kv.1.beq k) with
  | some kv => some kv.2
  | none => none

/-- A `BeginFor` frame: the source vector, the read position, and the
iteration count. -/
structure LoopSrc where
  source : Vec
  position : Int
  iterations : Int

/-- A fatal VM condition: a failed C `assert`, an unrecognised instruction
or other raised error, or fuel exhaustion (the latter never occurs in the
concrete computations below). -/
inductive Fatal where
  | assertFail (msg : String)
  | err (msg : String)
  | noFuel

def liftE {α : Type} : Except String α → Except Fatal α
  | .ok a => .ok a
  | .error m => .error (.assertFail m)

/-- The host environment: the module loader (`SharedCache`, §6 source
loader contract), the opaque host functions (called by name; a
context-consuming one receives the context), and the three builtin
function tables of `vm.pyx` (`STATIC_FUNCTIONS`, `NOISE_FUNCTIONS`,
`DYNAMIC_FUNCTIONS`), whose defining modules are absent. -/
structure Env where
  loader : String → Option String → Option Program
  host : String → Option Ctx → List Vec → Option (List (String × Vec)) →
    Except String Vec
  staticFns : List (String × Vec)
  noiseFns : List (String × Vec)
  dynFns : List (String × Vec)

/-- The `debug` dynamic builtin of `vm.pyx` (special-cased by identity in
`call_helper`). -/
def debugObj : Obj := .builtin "debug" false

/-- `static_builtins`: `true`/`false`/`null` updated with the static and
noise function tables. -/
def static_builtins (env : Env) : List (String × Vec) :=
  dictUpdate (dictUpdate
    [("true", trueV), ("false", falseV), ("null", nullV)] env.staticFns)
    env.noiseFns

/-- `dynamic_builtins`: `debug` updated with the dynamic function table. -/
def dynamic_builtins (env : Env) : List (String × Vec) :=
  dictUpdate [("debug", Vec.objs [debugObj])] env.dynFns

/-- `all_builtins`: the dynamic builtins updated with the static ones, so a
static builtin wins over a dynamic one of the same name. -/
def all_builtins (env : Env) : List (String × Vec) :=
  dictUpdate (dictUpdate [] (dynamic_builtins env)) (static_builtins env)

/-! ## The VM dispatch loop (`Program._execute`) -/

/-- The `Tag` instruction body: add the tag to every node element of the
top-of-stack vector (`_tags` is a Python set). -/
def tagApply (heap : Heap) (v : Vec) (t : String) : Heap :=
  match v with
  | .nums _ => heap
  | .objs os =>
    os.foldl
      (fun h o =>
        match o with
        | .node id =>
          match heapGet h id with
          | some nd => heapSet h id { nd with tags := setAdd nd.tags t }
          | none => h
        | _ => h)
      heap

/-- One element step of the `Attribute` instruction body: a node element
has its shared attribute map cloned (copy-on-write), then the value is
stored under the name, or the name is deleted when the value is empty; any
other element leaves the heap unchanged. -/
def attributeStep (name : String) (value : Vec) (h : Heap) (o : Obj) :
    Heap :=
  match o with
  | .node id =>
    match heapGet h id with
    | some nd =>
      let nd := { nd with attributesShared := false }
      if value.length != 0 then
        heapSet h id
          { nd with attributes := dictSet nd.attributes name value }
      else if dictHas nd.attributes name then
        heapSet h id
          { nd with attributes := dictDel nd.attributes name }
      else heapSet h id nd
    | none => h
  | _ => h

/-- The `Attribute` instruction body: `attributeStep` folded over the
elements of the top-of-stack vector (a numeric vector is untouched). -/
def attributeApply (heap : Heap) (v : Vec) (name : String) (value : Vec) :
    Heap :=
  match v with
  | .nums _ => heap
  | .objs os => os.foldl (attributeStep name value) heap

/-- `Node.append_vector(nodes, copy)` (modelled from the spec, §4.6/§9):
append every node element of the vector as a child, as a fresh copy when
`copy` is set. -/
def appendVector (fuel : Nat) (heap : Heap) (parentId : Nat) (v : Vec)
    (copy : Bool) : Option Heap :=
  match v with
  | .nums _ => some heap
  | .objs os =>
    os.foldl
      (fun acc o =>
        match acc with
        | none => none
        | some h =>
          match o with
          | .node cid =>
            if copy then
              match nodeCopy fuel h cid with
              | none => none
              | some (h', cid') => nodeAppend fuel h' parentId cid'
            else nodeAppend fuel h parentId cid
          | _ => some h)
      (some heap)

/-- The `Append` instruction body: `r1` (found `m` below the top) holds the
parents; each of the `m` child vectors above it is appended to every parent
node, the last parent receiving the originals and the earlier ones
copies. -/
def appendApply (fuel : Nat) (heap : Heap) (stack : List Vec) (m : Int) :
    Except Fatal Heap :=
  match liftE (stackPeekAt stack m) with
  | .error e => .error e
  | .ok r1 =>
    match r1 with
    | .nums _ => .ok heap
    | .objs parents =>
      let n := parents.length - 1
      let outer := (List.range m.toNat).reverse
      outer.foldl
        (fun acc i =>
          match acc with
          | .error e => .error e
          | .ok h =>
            match liftE (stackPeekAt stack (Int.ofNat i)) with
            | .error e => .error e
            | .ok r2 =>
              match r2 with
              | .nums _ => .ok h
              | .objs _ =>
                (List.range parents.length).foldl
                  (fun acc2 j =>
                    match acc2 with
                    | .error e => .error e
                    | .ok h2 =>
                      match parents.getD j (.num 0) with
                      | .node pid =>
                        match appendVector fuel h2 pid r2 (j != n) with
                        | some h3 => .ok h3
                        | none => .error .noFuel
                      | _ => .ok h2)
                  (.ok h))
        (.ok heap)

/-- The `Prepend` instruction body: insert the node elements of `r2`, in
reverse, before the children of every node of `r1`; the last node of `r1`
receives the originals, earlier ones copies. -/
def prependApply (fuel : Nat) (heap : Heap) (r1 r2 : Vec) :
    Except Fatal Heap :=
  match r1, r2 with
  | .objs parents, .objs childs =>
    let n := parents.length - 1
    (List.range parents.length).foldl
      (fun acc i =>
        match acc with
        | .error e => .error e
        | .ok h =>
          match parents.getD i (.num 0) with
          | .node pid =>
            childs.reverse.foldl
              (fun acc2 c =>
                match acc2 with
                | .error e => .error e
                | .ok h2 =>
                  match c with
                  | .node cid =>
                    if i == n then
                      match nodeInsert fuel h2 pid cid with
                      | some h3 => .ok h3
                      | none => .error .noFuel
                    else
                      match nodeCopy fuel h2 cid with
                      | none => .error .noFuel
                      | some (h3, cid') =>
                        match nodeInsert fuel h3 pid cid' with
                        | some h4 => .ok h4
                        | none => .error .noFuel
                  | _ => .ok h2)
              (.ok h)
          | _ => .ok h)
      (.ok heap)
  | _, _ => .ok heap

/-- The `AppendRoot` instruction body: attach each node element that has no
parent yet to the graph root; already-parented nodes are silently
skipped. -/
def appendRootApply (heap : Heap) (root : Nat) (v : Vec) : Heap :=
  match v with
  | .nums _ => heap
  | .objs os =>
    os.foldl
      (fun h o =>
        match o with
        | .node id =>
          match heapGet h id, heapGet h root with
          | some nd, some rd =>
            match nd.parent with
            | none =>
              heapSet (heapSet h id { nd with parent := some root }) root
                { rd with children := rd.children ++ [id] }
            | some _ => h
          | _, _ => h
        | _ => h)
      heap

/-- The `SetNodeScope` instruction body: when the top of stack is a single
node, clone its attribute map if shared (copy-on-write) and return its id
as the new node scope. -/
def setNodeScopeApply (heap : Heap) (v : Vec) (cur : Option Nat) :
    Heap × Option Nat :=
  match v with
  | .objs [.node id] =>
    match heapGet heap id with
    | some nd =>
      (heapSet heap id { nd with attributesShared := false }, some id)
    | none => (heap, cur)
  | _ => (heap, cur)

/-- The `Search` instruction body: scan the root's children in document
order with `Node._select`. -/
def searchApply (fuel : Nat) (heap : Heap) (root : Nat) (q : Query) : Vec :=
  match heapGet heap root with
  | none => nullV
  | some rd =>
    let values :=
      (rd.children.foldl
        (fun (st : List Obj × Bool) c =>
          if st.2 then st else nodeSelect fuel heap c q st.1)
        ([], false)).1
    if values.isEmpty then nullV else .objs values

/-- The parameter-binding loop at the top of `call_helper`'s `Function`
branch: each parameter takes the positional argument at its index, else
its keyword argument, else its default, and is pushed onto the function's
captured locals. -/
def bindParams (parameters : List String) (defaults : List Vec)
    (args : List Vec) (kwargs : Option (List (String × Vec)))
    (lvars0 : List Vec) : List Vec :=
  (List.range parameters.length).foldl
    (fun lv i =>
      if i < args.length then stackPush lv (args.getD i nullV)
      else
        match kwargs with
        | some kw =>
          match dictGet kw (parameters.getD i "") with
          | some v => stackPush lv v
          | none => stackPush lv (defaults.getD i nullV)
        | none => stackPush lv (defaults.getD i nullV))
    lvars0

/-- Name resolution for the `Name` instruction: program variables, then
`all_builtins`, then the node scope's attributes. -/
def nameResolve (env : Env) (vars : List (String × Vec)) (heap : Heap)
    (nodeScope : Option Nat) (s : String) : Option Vec :=
  match dictGet vars s with
  | some v => some v
  | none =>
    match dictGet (all_builtins env) s with
    | some v => some v
    | none =>
      match nodeScope with
      | some id =>
        match heapGet heap id with
        | some nd => dictGet nd.attributes s
        | none => none
      | none => none

mutual

/-- `Program._execute`'s dispatch loop: one fuel unit per executed
instruction (and per nested call or import).  `loops`/`loopSrc` are the
loop-source stack and current frame, `nodeScope` the current node scope. -/
def execLoop (env : Env) :
    Nat → Program → Int → Ctx → Heap → List Vec → List Vec →
    List LoopSrc → Option LoopSrc → Option Nat →
    Except Fatal (Ctx × Heap × List Vec × List Vec)
  | 0, _, _, _, _, _, _, _, _, _ => .error .noFuel
  | fuel + 1, p, pc, ctx, heap, stack, lvars, loops, loopSrc, nodeScope =>
    let pend : Int := p.instructions.length
    if ¬(0 ≤ pc ∧ pc < pend) then
      if pc == pend then .ok (ctx, heap, stack, lvars)
      else .error (.assertFail "Jump outside of program")
    else
      match p.instructions.get? pc.toNat with
      | none => .error (.err "bad pc")
      | some instr =>
        let pc := pc + 1
        let go := execLoop env fuel p
        match instr with
        | .dup =>
          match liftE (stackPeek stack) with
          | .error e => .error e
          | .ok v => go pc ctx heap (stackPush stack v) lvars loops loopSrc
              nodeScope
        | .drop n =>
          match liftE (stackDrop stack n) with
          | .error e => .error e
          | .ok stack => go pc ctx heap stack lvars loops loopSrc nodeScope
        | .label _ => go pc ctx heap stack lvars loops loopSrc nodeScope
        | .jump _ offset =>
          go (pc + offset) ctx heap stack lvars loops loopSrc nodeScope
        | .branchTrue _ offset =>
          match liftE (stackPop stack) with
          | .error e => .error e
          | .ok (v, stack) =>
            go (if v.as_bool then pc + offset else pc) ctx heap stack lvars
              loops loopSrc nodeScope
        | .branchFalse _ offset =>
          match liftE (stackPop stack) with
          | .error e => .error e
          | .ok (v, stack) =>
            go (if v.as_bool then pc else pc + offset) ctx heap stack lvars
              loops loopSrc nodeScope
        | .pragma s =>
          match liftE (stackPop stack) with
          | .error e => .error e
          | .ok (v, stack) =>
            go pc { ctx with pragmas := dictSet ctx.pragmas s v } heap stack
              lvars loops loopSrc nodeScope
        | .importNames names =>
          match liftE (stackPop stack) with
          | .error e => .error e
          | .ok (fv, stack) =>
            let filename := fv.as_string
            match import_module env fuel ctx heap filename with
            | .error e => .error e
            | .ok (ctx, heap, importVars) =>
              match importVars with
              | some ivars =>
                let st := names.foldl
                  (fun (acc : Ctx × List Vec) nm =>
                    match dictGet ivars nm with
                    | some v => (acc.1, stackPush acc.2 v)
                    | none =>
                      ({ acc.1 with errors := (setAdd acc.1.errors
                          ("Unable to import '" ++ nm ++ "' from '" ++
                            filename ++ "'")) },
                       stackPush acc.2 nullV))
                  (ctx, lvars)
                go pc st.1 heap stack st.2 loops loopSrc nodeScope
              | none =>
                let ctx := { ctx with errors := (setAdd ctx.errors
                  ("Unable to import from '" ++ filename ++ "'")) }
                let lvars := names.foldl
                  (fun lv _ => stackPush lv nullV) lvars
                go pc ctx heap stack lvars loops loopSrc nodeScope
        | .literal v =>
          go pc ctx heap (stackPush stack v) lvars loops loopSrc nodeScope
        | .literalNode id =>
          match nodeCopy fuel heap id with
          | none => .error .noFuel
          | some (heap, id') =>
            go pc ctx heap (stackPush stack (.objs [.node id'])) lvars loops
              loopSrc nodeScope
        | .literalNodes v =>
          match v.copynodes fuel heap with
          | none => .error .noFuel
          | some (heap, v') =>
            go pc ctx heap (stackPush stack v') lvars loops loopSrc
              nodeScope
        | .localDrop n =>
          match liftE (stackDrop lvars n) with
          | .error e => .error e
          | .ok lvars => go pc ctx heap stack lvars loops loopSrc nodeScope
        | .localLoad k =>
          match liftE (stackPeekAt lvars k) with
          | .error e => .error e
          | .ok v =>
            match v.copynodes fuel heap with
            | none => .error .noFuel
            | some (heap, v') =>
              go pc ctx heap (stackPush stack v') lvars loops loopSrc
                nodeScope
        | .localPush n =>
          match liftE (stackPop stack) with
          | .error e => .error e
          | .ok (r1, stack) =>
            let lvars :=
              if n == 1 then stackPush lvars r1
              else (List.range n.toNat).foldl
                (fun lv i => stackPush lv (r1.item (Int.ofNat i))) lvars
            go pc ctx heap stack lvars loops loopSrc nodeScope
        | .name s =>
          match nameResolve env ctx.vars heap nodeScope s with
          | some v =>
            go pc ctx heap (stackPush stack v) lvars loops loopSrc nodeScope
          | none =>
            go pc { ctx with errors := (setAdd ctx.errors
                ("Unbound name '" ++ s ++ "'")) }
              heap (stackPush stack nullV) lvars loops loopSrc nodeScope
        | .lookup =>
          match liftE (stackPeek stack), ctx.stateD with
          | .error e, _ => .error e
          | .ok _, none => .error (.err "no state")
          | .ok k, some st =>
            let v := (stateGet st k).getD nullV
            match liftE (stackPoke stack v) with
            | .error e => .error e
            | .ok stack => go pc ctx heap stack lvars loops loopSrc
                nodeScope
        | .lookupLiteral k =>
          match ctx.stateD with
          | none => .error (.err "no state")
          | some st =>
            let v := (stateGet st k).getD nullV
            go pc ctx heap (stackPush stack v) lvars loops loopSrc nodeScope
        | .range =>
          match liftE (stackPop stack) with
          | .error e => .error e
          | .ok (r3, stack) =>
            match liftE (stackPop stack) with
            | .error e => .error e
            | .ok (r2, stack) =>
              match liftE (stackPeek stack) with
              | .error e => .error e
              | .ok r0 =>
                match liftE (stackPoke stack (fill_range r0 r2 r3)) with
                | .error e => .error e
                | .ok stack => go pc ctx heap stack lvars loops loopSrc
                    nodeScope
        | .neg =>
          match liftE (stackPeek stack) with
          | .error e => .error e
          | .ok v =>
            match liftE (stackPoke stack v.neg) with
            | .error e => .error e
            | .ok stack => go pc ctx heap stack lvars loops loopSrc
                nodeScope
        | .pos =>
          match liftE (stackPeek stack) with
          | .error e => .error e
          | .ok v =>
            if v.isNums then go pc ctx heap stack lvars loops loopSrc
              nodeScope
            else
              match liftE (stackPoke stack nullV) with
              | .error e => .error e
              | .ok stack => go pc ctx heap stack lvars loops loopSrc
                  nodeScope
        | .not =>
          match liftE (stackPeek stack) with
          | .error e => .error e
          | .ok v =>
            match liftE (stackPoke stack (if v.as_bool then falseV
                else trueV)) with
            | .error e => .error e
            | .ok stack => go pc ctx heap stack lvars loops loopSrc
                nodeScope
        | .add => execBinOp env fuel p pc ctx heap stack lvars loops loopSrc
            nodeScope Vec.add
        | .sub => execBinOp env fuel p pc ctx heap stack lvars loops loopSrc
            nodeScope Vec.sub
        | .mul => execBinOp env fuel p pc ctx heap stack lvars loops loopSrc
            nodeScope Vec.mul
        | .trueDiv => execBinOp env fuel p pc ctx heap stack lvars loops
            loopSrc nodeScope Vec.truediv
        | .floorDiv => execBinOp env fuel p pc ctx heap stack lvars loops
            loopSrc nodeScope Vec.floordiv
        | .mod => execBinOp env fuel p pc ctx heap stack lvars loops loopSrc
            nodeScope Vec.modV
        | .pow => execBinOp env fuel p pc ctx heap stack lvars loops loopSrc
            nodeScope Vec.powV
        | .eq => execBinOp env fuel p pc ctx heap stack lvars loops loopSrc
            nodeScope Vec.eqV
        | .ne => execBinOp env fuel p pc ctx heap stack lvars loops loopSrc
            nodeScope Vec.neV
        | .gt => execBinOp env fuel p pc ctx heap stack lvars loops loopSrc
            nodeScope Vec.gtV
        | .lt => execBinOp env fuel p pc ctx heap stack lvars loops loopSrc
            nodeScope Vec.ltV
        | .ge => execBinOp env fuel p pc ctx heap stack lvars loops loopSrc
            nodeScope Vec.geV
        | .le => execBinOp env fuel p pc ctx heap stack lvars loops loopSrc
            nodeScope Vec.leV
        | .mulAdd =>
          match liftE (stackPop stack) with
          | .error e => .error e
          | .ok (r2, stack) =>
            match liftE (stackPop stack) with
            | .error e => .error e
            | .ok (r1, stack) =>
              match liftE (stackPeek stack) with
              | .error e => .error e
              | .ok r0 =>
                match liftE (stackPoke stack (r0.mul_add r1 r2)) with
                | .error e => .error e
                | .ok stack => go pc ctx heap stack lvars loops loopSrc
                    nodeScope
        | .xor =>
          match liftE (stackPop stack) with
          | .error e => .error e
          | .ok (r2, stack) =>
            match liftE (stackPeek stack) with
            | .error e => .error e
            | .ok r1 =>
              if ¬r1.as_bool then
                match liftE (stackPoke stack r2) with
                | .error e => .error e
                | .ok stack => go pc ctx heap stack lvars loops loopSrc
                    nodeScope
              else if r2.as_bool then
                match liftE (stackPoke stack falseV) with
                | .error e => .error e
                | .ok stack => go pc ctx heap stack lvars loops loopSrc
                    nodeScope
              else go pc ctx heap stack lvars loops loopSrc nodeScope
        | .slice =>
          match liftE (stackPop stack) with
          | .error e => .error e
          | .ok (r1, stack) =>
            match liftE (stackPeek stack) with
            | .error e => .error e
            | .ok r0 =>
              match liftE (stackPoke stack (r0.sliceV r1)) with
              | .error e => .error e
              | .ok stack => go pc ctx heap stack lvars loops loopSrc
                  nodeScope
        | .sliceLiteral v =>
          match liftE (stackPeek stack) with
          | .error e => .error e
          | .ok r0 =>
            match liftE (stackPoke stack (r0.sliceV v)) with
            | .error e => .error e
            | .ok stack => go pc ctx heap stack lvars loops loopSrc
                nodeScope
        | .indexLiteral i =>
          match liftE (stackPeek stack) with
          | .error e => .error e
          | .ok r0 =>
            match liftE (stackPoke stack (r0.item i)) with
            | .error e => .error e
            | .ok stack => go pc ctx heap stack lvars loops loopSrc
                nodeScope
        | .call n names =>
          match liftE (stackPop stack) with
          | .error e => .error e
          | .ok (r1, stack) =>
            let kwres :=
              match names with
              | some ks =>
                match stackPopDict stack ks with
                | .ok (d, stack) => .ok (some d, stack)
                | .error e => .error e
              | none => .ok (none, stack)
            match liftE kwres with
            | .error e => .error e
            | .ok (kwargs, stack) =>
              match liftE (if n != 0 then stackPopTuple stack n
                  else .ok ([], stack)) with
              | .error e => .error e
              | .ok (args, stack) =>
                match r1 with
                | .objs os =>
                  let res : Except Fatal (Ctx × Heap × List Vec) :=
                    os.foldl
                      (fun (acc : Except Fatal (Ctx × Heap × List Vec))
                          o =>
                        match acc with
                        | .error e => .error e
                        | .ok (ctx, heap, stack) =>
                          call_helper env fuel ctx heap stack o args kwargs)
                      (.ok (ctx, heap, stack))
                  match res with
                  | .error e => .error e
                  | .ok (ctx, heap, stack) =>
                    if os.length > 1 then
                      match liftE (pop_composed stack
                          (Int.ofNat os.length)) with
                      | .error e => .error e
                      | .ok (v, stack) =>
                        go pc ctx heap (stackPush stack v) lvars loops
                          loopSrc nodeScope
                    else go pc ctx heap stack lvars loops loopSrc nodeScope
                | .nums _ =>
                  go pc ctx heap (stackPush stack nullV) lvars loops loopSrc
                    nodeScope
        | .callFast fn n =>
          match liftE (stackPopTuple stack n) with
          | .error e => .error e
          | .ok (args, stack) =>
            let res : Except String Vec :=
              match fn with
              | .builtin "debug" false =>
                if args.length == 1 then .ok (args.getD 0 nullV)
                else .error "TypeError"
              | .builtin nm _ => env.host nm none args none
              | _ => .error "not callable"
            match res with
            | .ok v =>
              go pc ctx heap (stackPush stack v) lvars loops loopSrc
                nodeScope
            | .error msg =>
              go pc { ctx with errors := (setAdd ctx.errors
                  ("Error calling " ++ fn.reprS ++ "\n" ++ msg)) }
                heap (stackPush stack nullV) lvars loops loopSrc nodeScope
        | .func name params =>
          match liftE (stackPop stack) with
          | .error e => .error e
          | .ok (pv, stack) =>
            match pv with
            | .objs (.subprog body :: _) =>
              match liftE (if params.length != 0 then
                  stackPopTuple stack (Int.ofNat params.length)
                else .ok ([], stack)) with
              | .error e => .error e
              | .ok (defaults, stack) =>
                let f : FuncVal := .mk name params defaults body lvars
                  ctx.path
                go pc ctx heap (stackPush stack (.objs [.func f])) lvars
                  loops loopSrc nodeScope
            | _ => .error (.err "Func: body is not a program")
        | .tag t =>
          match liftE (stackPeek stack) with
          | .error e => .error e
          | .ok r1 =>
            go pc ctx (tagApply heap r1 t) stack lvars loops loopSrc
              nodeScope
        | .attribute nm =>
          match liftE (stackPop stack) with
          | .error e => .error e
          | .ok (r2, stack) =>
            match liftE (stackPeek stack) with
            | .error e => .error e
            | .ok r1 =>
              go pc ctx (attributeApply heap r1 nm r2) stack lvars loops
                loopSrc nodeScope
        | .append m =>
          match appendApply fuel heap stack m with
          | .error e => .error e
          | .ok heap =>
            match liftE (stackDrop stack m) with
            | .error e => .error e
            | .ok stack => go pc ctx heap stack lvars loops loopSrc
                nodeScope
        | .prepend =>
          match liftE (stackPop stack) with
          | .error e => .error e
          | .ok (r2, stack) =>
            match liftE (stackPeek stack) with
            | .error e => .error e
            | .ok r1 =>
              match prependApply fuel heap r1 r2 with
              | .error e => .error e
              | .ok heap => go pc ctx heap stack lvars loops loopSrc
                  nodeScope
        | .compose n =>
          match liftE (pop_composed stack n) with
          | .error e => .error e
          | .ok (v, stack) =>
            go pc ctx heap (stackPush stack v) lvars loops loopSrc nodeScope
        | .beginFor =>
          match liftE (stackPop stack) with
          | .error e => .error e
          | .ok (src, stack) =>
            let loops := match loopSrc with
              | some ls => loops ++ [ls]
              | none => loops
            go pc ctx heap stack lvars loops
              (some { source := src, position := 0, iterations := 0 })
              nodeScope
        | .next _ offset n =>
          match loopSrc with
          | none => .error (.err "no loop source")
          | some ls =>
            if ls.position ≥ (ls.source.length : Int) then
              go (pc + offset) ctx heap stack lvars loops loopSrc nodeScope
            else
              let inner := (List.range n.toNat).reverse
              let st := inner.foldl
                (fun (acc : Except Fatal (List Vec × Int)) i =>
                  match acc with
                  | .error e => .error e
                  | .ok (lv, posn) =>
                    match liftE (stackPokeAt lv (Int.ofNat i)
                        (ls.source.item posn)) with
                    | .error e => .error e
                    | .ok lv => .ok (lv, posn + 1))
                (.ok (lvars, ls.position))
              match st with
              | .error e => .error e
              | .ok (lvars, posn) =>
                go pc ctx heap stack lvars loops
                  (some { ls with
                    position := posn
                    iterations := ls.iterations + 1 }) nodeScope
        | .pushNext _ offset =>
          match loopSrc with
          | none => .error (.err "no loop source")
          | some ls =>
            if ls.position == (ls.source.length : Int) then
              go (pc + offset) ctx heap stack lvars loops loopSrc nodeScope
            else
              go pc ctx heap (stackPush stack (ls.source.item ls.position))
                lvars loops
                (some { ls with
                  position := ls.position + 1
                  iterations := ls.iterations + 1 }) nodeScope
        | .endFor =>
          match loops.getLast? with
          | some ls =>
            go pc ctx heap stack lvars (loops.dropLast) (some ls) nodeScope
          | none => go pc ctx heap stack lvars loops none nodeScope
        | .endForCompose =>
          match loopSrc with
          | none => .error (.err "no loop source")
          | some ls =>
            match liftE (pop_composed stack ls.iterations) with
            | .error e => .error e
            | .ok (v, stack) =>
              let stack := stackPush stack v
              match loops.getLast? with
              | some ls' =>
                go pc ctx heap stack lvars loops.dropLast (some ls')
                  nodeScope
              | none => go pc ctx heap stack lvars loops none nodeScope
        | .setNodeScope =>
          match liftE (stackPeek stack) with
          | .error e => .error e
          | .ok r1 =>
            let (heap, nodeScope) := setNodeScopeApply heap r1 nodeScope
            go pc ctx heap stack lvars loops loopSrc nodeScope
        | .clearNodeScope =>
          go pc ctx heap stack lvars loops loopSrc none
        | .storeGlobal s =>
          match liftE (stackPop stack) with
          | .error e => .error e
          | .ok (v, stack) =>
            go pc { ctx with vars := dictSet ctx.vars s v } heap stack lvars
              loops loopSrc nodeScope
        | .search q =>
          go pc ctx heap
            (stackPush stack (searchApply fuel heap ctx.graphRoot q)) lvars
            loops loopSrc nodeScope
        | .appendRoot =>
          match liftE (stackPop stack) with
          | .error e => .error e
          | .ok (r1, stack) =>
            go pc ctx (appendRootApply heap ctx.graphRoot r1) stack lvars
              loops loopSrc nodeScope

/-- The shared tail of the binary arithmetic/comparison opcodes:
`r1 = pop(); poke(peek().op(r1))`. -/
def execBinOp (env : Env) :
    Nat → Program → Int → Ctx → Heap → List Vec → List Vec →
    List LoopSrc → Option LoopSrc → Option Nat → (Vec → Vec → Vec) →
    Except Fatal (Ctx × Heap × List Vec × List Vec)
  | 0, _, _, _, _, _, _, _, _, _, _ => .error .noFuel
  | fuel + 1, p, pc, ctx, heap, stack, lvars, loops, loopSrc, nodeScope,
      op =>
  match liftE (stackPop stack) with
  | .error e => .error e
  | .ok (r1, stack) =>
    match liftE (stackPeek stack) with
    | .error e => .error e
    | .ok r0 =>
      match liftE (stackPoke stack (op r0 r1)) with
      | .error e => .error e
      | .ok stack =>
        execLoop env fuel p pc ctx heap stack lvars loops loopSrc nodeScope

/-- `call_helper`: dispatch one element of a callable vector.  A `Function`
value runs its program on the caller's value stack above the function's
captured locals extended with the bound parameters, asserts the stack grew
by exactly one and the locals height is unchanged, then pops the parameter
locals (the captured stack is persistent in the source and balanced by
these asserts, so its final state is not returned).  The `debug` builtin
logs and returns its single argument.  Any other object is called through
the host; an exception is recorded in `context.errors` and yields
`null`. -/
def call_helper (env : Env) :
    Nat → Ctx → Heap → List Vec → Obj → List Vec →
    Option (List (String × Vec)) →
    Except Fatal (Ctx × Heap × List Vec)
  | 0, _, _, _, _, _, _ => .error .noFuel
  | fuel + 1, ctx, heap, stack, o, args, kwargs =>
    match o with
    | .func (.mk _ parameters defaults program lvars0 rootPath) =>
      execFuncCall env fuel ctx heap stack parameters defaults program
        lvars0 rootPath args kwargs
    | _ =>
      match o, args, kwargs with
      | .builtin "debug" false, [a], none =>
        .ok ({ ctx with logs := setAdd ctx.logs a.reprS }, heap,
          stackPush stack a)
      | _, _, _ =>
        let res :=
          match o with
          | .builtin nm ctxFunc =>
            env.host nm (if ctxFunc then some ctx else none) args kwargs
          | _ => .error "not callable"
        match res with
        | .ok v => .ok (ctx, heap, stackPush stack v)
        | .error msg =>
          .ok ({ ctx with errors := (setAdd ctx.errors
              ("Error calling " ++ o.reprS ++ "\n" ++ msg)) }, heap,
            stackPush stack nullV)

/-- The `Function`-value branch of `call_helper`: bind each parameter from
the positional arguments, then keyword arguments, then the defaults; run
the body program on the caller's value stack above the captured locals;
assert the stack grew by exactly one and the locals height is back at its
post-binding value; pop the parameter locals (restoring the captured
stack, whose balanced final state the source keeps in the `Function`);
restore the caller's path. -/
def execFuncCall (env : Env) :
    Nat → Ctx → Heap → List Vec → List String → List Vec → Program →
    List Vec → Option String → List Vec → Option (List (String × Vec)) →
    Except Fatal (Ctx × Heap × List Vec)
  | 0, _, _, _, _, _, _, _, _, _, _ => .error .noFuel
  | fuel + 1, ctx, heap, stack, parameters, defaults, program, lvars0,
      rootPath, args, kwargs =>
    let lvarsB := bindParams parameters defaults args kwargs lvars0
    let saved := ctx.path
    let ctx := { ctx with path := rootPath }
    if ¬program.linked then
      .error (.assertFail "Program has not been linked")
    else
      match execLoop env fuel program 0 ctx heap stack lvarsB [] none
          none with
      | .error e => .error e
      | .ok (ctx, heap, stack', lvars') =>
        if stack'.length ≠ stack.length + 1 then
          .error (.assertFail "Bad function return stack")
        else if lvars'.length ≠ lvarsB.length then
          .error (.assertFail "Bad function return lvars")
        else
          match liftE (stackDrop lvars'
              (Int.ofNat parameters.length)) with
          | .error e => .error e
          | .ok _ => .ok ({ ctx with path := saved }, heap, stack')

/-- `import_module`: ask the loader for the module's program; walk the
chain of importers for a path cycle (recording a "Circular import" error
and fails); otherwise run the module in a child context sharing errors,
logs, graph, pragmas and state, with fresh empty stacks (asserted empty
again afterwards), and return its variables. -/
def import_module (env : Env) :
    Nat → Ctx → Heap → String →
    Except Fatal (Ctx × Heap × Option (List (String × Vec)))
  | 0, _, _, _ => .error .noFuel
  | fuel + 1, ctx, heap, filename =>
    match env.loader filename ctx.path with
    | none => .ok (ctx, heap, none)
    | some program =>
      if (ctx.path :: ctx.parentPaths).contains program.path then
        .ok ({ ctx with errors := (setAdd ctx.errors
            ("Circular import of " ++ filename)) }, heap, none)
      else
        let child : Ctx :=
          { vars := [], pragmas := ctx.pragmas, errors := ctx.errors,
            logs := ctx.logs, stateD := ctx.stateD,
            graphRoot := ctx.graphRoot, path := program.path,
            parentPaths := ctx.path :: ctx.parentPaths, unbound := none }
        if ¬program.linked then
          .error (.assertFail "Program has not been linked")
        else
          match execLoop env fuel program 0 child heap [] [] [] none
              none with
          | .error e => .error e
          | .ok (child, heap, stack, lvarsOut) =>
            match stack, lvarsOut with
            | _ :: _, _ => .error (.assertFail "Bad stack")
            | [], _ :: _ => .error (.assertFail "Bad lvars")
            | [], [] =>
              .ok ({ ctx with
                  errors := child.errors
                  logs := child.logs
                  pragmas := child.pragmas
                  stateD := child.stateD },
                heap, some child.vars)

end

/-! ## Linking, peephole optimisation, program building and running -/

/-- The label of a `Label` instruction, else `none`. -/
def Instr.labelOf : Instr → Option Int
  | .label l => some l
  | _ => none

/-- The target label of a jump-family instruction (`InstructionJump`),
else `none`. -/
def Instr.jumpLabel : Instr → Option Int
  | .jump l _ => some l
  | .branchTrue l _ => some l
  | .branchFalse l _ => some l
  | .next l _ _ => some l
  | .pushNext l _ => some l
  | _ => none

/-- Set a jump-family instruction's resolved offset. -/
def Instr.withOffset (i : Instr) (off : Int) : Instr :=
  match i with
  | .jump l _ => .jump l off
  | .branchTrue l _ => .branchTrue l off
  | .branchFalse l _ => .branchFalse l off
  | .next l _ n => .next l off n
  | .pushNext l _ => .pushNext l off
  | _ => i

/-- `Program.link`: record each label's address (a repeated label keeps its
last address, as repeated `labels[...] = address` stores do), then set each
jump's offset to `target - address`; a jump to an unrecorded label raises
(`labels[label]` fails), which is fatal. -/
def Program.link (p : Program) : Except Fatal Program :=
  let addrs := p.instructions.enum
  let labels := addrs.foldl
    (fun (acc : List (Int × Int)) ai =>
      match ai.2.labelOf with
      | some l => (l, Int.ofNat ai.1) :: acc
      | none => acc)
    []
  let resolved := addrs.mapM fun ai =>
    match ai.2.jumpLabel with
    | some l =>
      match labels.find? (fun la => la.1 == l) with
      | some la => some (ai.2.withOffset (la.2 - Int.ofNat ai.1))
      | none => none
    | none => some ai.2
  match resolved with
  | some instrs =>
    .ok (.mk instrs true p.nextLabel p.path)
  | none => .error (.err "KeyError: unknown label")

/-- The loop body of `Program.optimize`, with the emitted instructions
accumulated in reverse so the source's `instructions[-1]` is the head:
fuse `Compose`/`Compose`, `Compose`/`Append` and `Mul`/`Add` pairs, and
drop an empty-vector `Literal` together with the `Append`/`AppendRoot`
that follows it; everything else is appended unchanged. -/
def optLoop : List Instr → List Instr → List Instr
  | acc, [] => acc.reverse
  | last :: acc', instr :: rest =>
    match last, instr with
    | .compose a, .compose b => optLoop (.compose (b - 1 + a) :: acc') rest
    | .compose a, .append b => optLoop (.append (b - 1 + a) :: acc') rest
    | .mul, .add => optLoop (.mulAdd :: acc') rest
    | .literal v, .append _ =>
      if v.length == 0 then optLoop acc' rest
      else optLoop (instr :: .literal v :: acc') rest
    | .literal v, .appendRoot =>
      if v.length == 0 then optLoop acc' rest
      else optLoop (instr :: .literal v :: acc') rest
    | _, _ => optLoop (instr :: last :: acc') rest
  | [], instr :: rest => optLoop [instr] rest

/-- `Program.optimize`: peephole-rewrite the instruction list; a linked
program is rejected by the `assert`. -/
def Program.optimize (p : Program) : Except Fatal Program :=
  if p.linked then .error (.assertFail "Cannot optimize a linked program")
  else .ok (p.withInstructions (optLoop [] p.instructions))

/-- Shift every label reference by `d` (used by `Program.extend`). -/
def Instr.shiftLabels (d : Int) : Instr → Instr
  | .label l => .label (l + d)
  | .jump l o => .jump (l + d) o
  | .branchTrue l o => .branchTrue (l + d) o
  | .branchFalse l o => .branchFalse (l + d) o
  | .next l o n => .next (l + d) o n
  | .pushNext l o => .pushNext (l + d) o
  | i => i

/-- Modelled from the spec: `Program.extend` is called by every `_compile`
method but its implementation is not among the sources.  It must append
the sub-program's instructions while keeping label names distinct, so it
is modelled as shifting the sub-program's labels (numbered from 1) past
this program's label counter, which then absorbs them. -/
def Program.extend (p q : Program) : Program :=
  .mk (p.instructions ++ q.instructions.map (Instr.shiftLabels
        (p.nextLabel - 1)))
    p.linked (p.nextLabel + q.nextLabel - 1) p.path

/-- `Program.new_label`. -/
def Program.newLabel (p : Program) : Program × Int :=
  (.mk p.instructions p.linked (p.nextLabel + 1) p.path, p.nextLabel)

/-- Append one instruction (the one-line `cpdef` emitters of `vm.pyx`). -/
def Program.emit (p : Program) (i : Instr) : Program :=
  p.withInstructions (p.instructions ++ [i])

/-- `Program.literal`: a one-element node vector becomes `LiteralNode`, a
longer vector containing a node becomes `LiteralNodes`, everything else a
plain `Literal`. -/
def literalInstr (value : Vec) : Instr :=
  match value with
  | .objs [o] =>
    match o with
    | .node id => .literalNode id
    | _ => .literal value
  | .objs os =>
    if os.any (fun o => match o with | .node _ => true | _ => false) then
      .literalNodes value
    else .literal value
  | .nums _ => .literal value

/-- `Program.slice_literal`: a one-element numeric index is lowered to
`IndexLiteral` with the floored value, anything else to `SliceLiteral`. -/
def sliceLiteralInstr (value : Vec) : Instr :=
  match value with
  | .nums [x] => .indexLiteral x
  | _ => .sliceLiteral value

/-- The fresh graph root node a `Context` is created with (modelled from
the spec: `context.pyx` is absent; §3 gives the context a root `graph`
node). -/
def rootNode : NodeData :=
  { kind := "root", tags := [], attributes := [], attributesShared := false,
    parent := none, children := [] }

/-- `Program.run`: build a context over the given state (an empty state
dict if none) and variables, execute on the program's own (empty) stacks,
assert they end empty, and return the context — here together with the
node heap, whose root node holds the produced graph. -/
def Program.run (env : Env) (fuel : Nat) (p : Program) (heap0 : Heap)
    (state : Option (List (Vec × Vec))) (vars : Option (List (String × Vec))) :
    Except Fatal (Ctx × Heap) :=
  let ctx : Ctx :=
    { vars := vars.getD [], pragmas := [], errors := [], logs := [],
      stateD := some (state.getD []), graphRoot := heap0.length,
      path := p.path, parentPaths := [], unbound := none }
  let heap : Heap := heap0 ++ [rootNode]
  if ¬p.linked then .error (.assertFail "Program has not been linked")
  else
    match execLoop env fuel p 0 ctx heap [] [] [] none none with
    | .error e => .error e
    | .ok (ctx, heap, stack, lvars) =>
      match stack, lvars with
      | _ :: _, _ => .error (.assertFail "Bad stack")
      | [], _ :: _ => .error (.assertFail "Bad lvars")
      | [], [] => .ok (ctx, heap)

/-! ## The AST (`tree.pyx`)

The `Expression` subclasses of `tree.pyx`.  Subclass relationships that
`isinstance` checks rely on are encoded in predicates below:
`FunctionName` is a `Name`, `StoreGlobal` is a `Let`, `FastAttributes` is
an `Attributes`, `Prepend` is an `Append`, `InlineSequence` is a
`Sequence`.  `StoreGlobal` bindings are single-name (its `_compile`
asserts "StoreGlobal cannot multi-bind", and the partial evaluator only
builds single-name ones). -/
inductive Expression where
  | literal (value : Vec)
  | name (s : String)
  | functionName (s : String)
  | lookup (key : Expression)
  | lookupLiteral (key : Vec)
  | rangeE (start stop step : Expression)
  | negative (e : Expression)
  | positive (e : Expression)
  | notE (e : Expression)
  | add (l r : Expression)
  | subtract (l r : Expression)
  | multiply (l r : Expression)
  | divide (l r : Expression)
  | floorDivide (l r : Expression)
  | modulo (l r : Expression)
  | power (l r : Expression)
  | equalTo (l r : Expression)
  | notEqualTo (l r : Expression)
  | lessThan (l r : Expression)
  | greaterThan (l r : Expression)
  | lessThanOrEqualTo (l r : Expression)
  | greaterThanOrEqualTo (l r : Expression)
  | andE (l r : Expression)
  | orE (l r : Expression)
  | xorE (l r : Expression)
  | slice (e index : Expression)
  | fastSlice (e : Expression) (index : Vec)
  | call (fn : Expression) (args : List Expression)
      (kwargs : List (String × Expression))
  | tag (node : Expression) (t : String)
  | attributes (node : Expression) (bindings : List (String × Expression))
  | fastAttributes (node : Expression)
      (bindings : List (String × Expression))
  | search (q : Query)
  | appendE (node children : Expression)
  | prependE (node children : Expression)
  | let_ (bindings : List (List String × Expression))
  | storeGlobal (bindings : List (String × Expression))
  | inlineLet (body : Expression) (bindings : List (List String × Expression))
  | for_ (names : List String) (source body : Expression)
  | ifElse (tests : List (Expression × Expression))
      (else_ : Option Expression)
  | functionE (fname : String) (parameters : List (String × Option Expression))
      (body : Expression)
  | pragma (pname : String) (e : Expression)
  | importE (names : List String) (filename : Expression)
  | sequence (es : List Expression)
  | inlineSequence (es : List Expression)
deriving BEq

/-- The root of a parsed module (`Top`; the name `Top` itself is taken by
Mathlib). -/
structure TopExpr where
  expressions : List Expression
deriving BEq

/-- `isinstance(e, NodeModifier)`. -/
def Expression.isNodeModifier : Expression → Bool
  | .tag _ _ | .attributes _ _ | .fastAttributes _ _ | .appendE _ _
  | .prependE _ _ => true
  | _ => false

/-- `NodeModifier.ultimate_node`: strip the node-modifier chain. -/
def Expression.ultimateNode : Expression → Expression
  | .tag n _ => n.ultimateNode
  | .attributes n _ => n.ultimateNode
  | .fastAttributes n _ => n.ultimateNode
  | .appendE n _ => n.ultimateNode
  | .prependE n _ => n.ultimateNode
  | e => e

/-- `isinstance(e, Search)`. -/
def Expression.isSearch : Expression → Bool
  | .search _ => true
  | _ => false

/-- `isinstance(e, (Let, Import, Function))` — `StoreGlobal` is a `Let`
subclass. -/
def Expression.isLetImportFunction : Expression → Bool
  | .let_ _ | .storeGlobal _ | .importE _ _ | .functionE _ _ _ => true
  | _ => false

/-- `callable(obj)`: only host callables have a `tp_call` slot (`Function`
and `Program` extension objects do not). -/
def Obj.callableB : Obj → Bool
  | .builtin _ _ => true
  | _ => false

/-- `hasattr(obj, 'context_func')`. -/
def Obj.hasContextFunc : Obj → Bool
  | .builtin _ c => c
  | _ => false

/-- `Name._compile`: a name bound in `lvars` loads the local (index
counted from the innermost binding), any other name is looked up
dynamically. -/
def compileName (s : String) (lvars : List String) : Program :=
  match lvars.reverse.findIdx? (fun nm => nm == s) with
  | some i => Program.new.emit (.localLoad (Int.ofNat i))
  | none => Program.new.emit (.name s)

mutual

/-- `Expression._compile(lvars)`: build the fragment for one expression,
threading the compile-time local-name stack (the source mutates `lvars` in
place; here it is passed and returned).  Fuel bounds the recursion depth
and is ample in every concrete compilation below. -/
def expCompile : Nat → Expression → List String →
    Except Fatal (Program × List String)
  | 0, _, _ => .error .noFuel
  | fuel + 1, e, lvars =>
    match e with
    | .literal v => .ok (Program.new.emit (literalInstr v.intern), lvars)
    | .name s => .ok (compileName s lvars, lvars)
    | .functionName s => .ok (compileName s lvars, lvars)
    | .lookup key => do
      let (kp, lvars) ← expCompile fuel key lvars
      .ok ((Program.new.extend kp).emit .lookup, lvars)
    | .lookupLiteral k =>
      .ok (Program.new.emit (.lookupLiteral k.intern), lvars)
    | .rangeE e1 e2 e3 => do
      let (p1, lvars) ← expCompile fuel e1 lvars
      let (p2, lvars) ← expCompile fuel e2 lvars
      let (p3, lvars) ← expCompile fuel e3 lvars
      .ok ((((Program.new.extend p1).extend p2).extend p3).emit .range,
        lvars)
    | .negative e1 => do
      let (ep, lvars) ← expCompile fuel e1 lvars
      .ok ((Program.new.extend ep).emit .neg, lvars)
    | .positive e1 => do
      let (ep, lvars) ← expCompile fuel e1 lvars
      .ok ((Program.new.extend ep).emit .pos, lvars)
    | .notE e1 => do
      let (ep, lvars) ← expCompile fuel e1 lvars
      .ok ((Program.new.extend ep).emit .not, lvars)
    | .add l r => compileBin fuel l r .add lvars
    | .subtract l r => compileBin fuel l r .sub lvars
    | .multiply l r => compileBin fuel l r .mul lvars
    | .divide l r => compileBin fuel l r .trueDiv lvars
    | .floorDivide l r => compileBin fuel l r .floorDiv lvars
    | .modulo l r => compileBin fuel l r .mod lvars
    | .power l r => compileBin fuel l r .pow lvars
    | .equalTo l r => compileBin fuel l r .eq lvars
    | .notEqualTo l r => compileBin fuel l r .ne lvars
    | .lessThan l r => compileBin fuel l r .lt lvars
    | .greaterThan l r => compileBin fuel l r .gt lvars
    | .lessThanOrEqualTo l r => compileBin fuel l r .le lvars
    | .greaterThanOrEqualTo l r => compileBin fuel l r .ge lvars
    | .andE l r => do
      let (p, endL) := Program.new.newLabel
      let (lp, lvars) ← expCompile fuel l lvars
      let p := ((p.extend lp).emit .dup).emit (.branchFalse endL 0)
      let p := p.emit (.drop 1)
      let (rp, lvars) ← expCompile fuel r lvars
      .ok ((p.extend rp).emit (.label endL), lvars)
    | .orE l r => do
      let (p, endL) := Program.new.newLabel
      let (lp, lvars) ← expCompile fuel l lvars
      let p := ((p.extend lp).emit .dup).emit (.branchTrue endL 0)
      let p := p.emit (.drop 1)
      let (rp, lvars) ← expCompile fuel r lvars
      .ok ((p.extend rp).emit (.label endL), lvars)
    | .xorE l r => compileBin fuel l r .xor lvars
    | .slice e1 idx => do
      let (ep, lvars) ← expCompile fuel e1 lvars
      let (ip, lvars) ← expCompile fuel idx lvars
      .ok (((Program.new.extend ep).extend ip).emit .slice, lvars)
    | .fastSlice e1 idx => do
      let (ep, lvars) ← expCompile fuel e1 lvars
      .ok ((Program.new.extend ep).emit (sliceLiteralInstr idx), lvars)
    | .call fn args kwargs => do
      let (p, lvars) ← compileExprList fuel args lvars Program.new
      let fastObj : Option Obj :=
        match fn, kwargs with
        | .literal (.objs [o]), [] =>
          if o.callableB && !o.hasContextFunc then some o else none
        | _, _ => none
      match fastObj with
      | some o => .ok (p.emit (.callFast o (Int.ofNat args.length)), lvars)
      | none => do
        let (p, lvars) ← compileKwargs fuel kwargs lvars p
        let (fp, lvars) ← expCompile fuel fn lvars
        .ok ((p.extend fp).emit
          (.call (Int.ofNat args.length)
            (if kwargs.isEmpty then none else some (kwargs.map Prod.fst))),
          lvars)
    | .tag n t => do
      let (np, lvars) ← expCompile fuel n lvars
      .ok ((Program.new.extend np).emit (.tag t), lvars)
    | .attributes node bindings => do
      let (np, lvars) ← expCompile fuel node lvars
      let p := Program.new.extend np
      match node with
      | .literal v =>
        if v.length == 1 then do
          let (p, lvars) ← compileAttrBindings fuel bindings lvars
            (p.emit .setNodeScope)
          .ok (p.emit .clearNodeScope, lvars)
        else do
          let (p, startL) := ((p.emit .dup).emit .beginFor).newLabel
          let (p, endL) := p.newLabel
          let p := ((p.emit (.label startL)).emit (.pushNext endL 0)).emit
            .setNodeScope
          let (p, lvars) ← compileAttrBindings fuel bindings lvars p
          let p := (((p.emit (.drop 1)).emit (.jump startL 0)).emit
            (.label endL)).emit .endFor
          .ok (p.emit .clearNodeScope, lvars)
      | _ => do
        let (p, startL) := ((p.emit .dup).emit .beginFor).newLabel
        let (p, endL) := p.newLabel
        let p := ((p.emit (.label startL)).emit (.pushNext endL 0)).emit
          .setNodeScope
        let (p, lvars) ← compileAttrBindings fuel bindings lvars p
        let p := (((p.emit (.drop 1)).emit (.jump startL 0)).emit
          (.label endL)).emit .endFor
        .ok (p.emit .clearNodeScope, lvars)
    | .fastAttributes node bindings => do
      let (np, lvars) ← expCompile fuel node lvars
      compileAttrBindings fuel bindings lvars (Program.new.extend np)
    | .search q => .ok (Program.new.emit (.search q), lvars)
    | .appendE n c => do
      let (np, lvars) ← expCompile fuel n lvars
      let (cp, lvars) ← expCompile fuel c lvars
      .ok (((Program.new.extend np).extend cp).emit (.append 1), lvars)
    | .prependE n c => do
      let (np, lvars) ← expCompile fuel n lvars
      let (cp, lvars) ← expCompile fuel c lvars
      .ok (((Program.new.extend np).extend cp).emit .prepend, lvars)
    | .let_ bindings => compilePolyBindings fuel bindings lvars Program.new
    | .storeGlobal bindings =>
      compileStoreGlobal fuel bindings lvars Program.new
    | .inlineLet body bindings => do
      let n := lvars.length
      let (p, lvars) ← compilePolyBindings fuel bindings lvars Program.new
      let (bp, lvars) ← expCompile fuel body lvars
      let p := (p.extend bp).emit (.localDrop (Int.ofNat bindings.length))
      .ok (p, lvars.take n)
    | .for_ names source body => do
      let (sp, lvars) ← expCompile fuel source lvars
      let p := (Program.new.extend sp).emit .beginFor
      let (p, startL) := p.newLabel
      let (p, endL) := p.newLabel
      let lvars' := lvars ++ names
      let n := Int.ofNat names.length
      let p := (((p.emit (literalInstr nullV)).emit (.localPush n)).emit
        (.label startL)).emit (.next endL 0 n)
      let (bp, lvars') ← expCompile fuel body lvars'
      let p := ((((p.extend bp).emit (.jump startL 0)).emit
        (.label endL)).emit (.localDrop n)).emit .endForCompose
      .ok (p, lvars'.take lvars.length)
    | .ifElse tests else_ => do
      let (p, endL) := Program.new.newLabel
      let (p, lvars) ← compileIfTests fuel tests endL lvars p
      match else_ with
      | some e1 => do
        let (ep, lvars) ← expCompile fuel e1 lvars
        .ok ((p.extend ep).emit (.label endL), lvars)
      | none =>
        .ok ((p.emit (literalInstr nullV)).emit (.label endL), lvars)
    | .functionE fname parameters body => do
      let names := parameters.map Prod.fst
      let (p, lvars) ← compileParamDefaults fuel parameters lvars
        Program.new
      let (bodyP, _) ← expCompile fuel body (lvars ++ names)
      let bodyP ← bodyP.optimize
      let bodyP ← bodyP.link
      let p := ((p.emit (.literal (.objs [.subprog bodyP]))).emit
        (.func fname names)).emit (.localPush 1)
      .ok (p, lvars ++ [fname])
    | .pragma pname e1 => do
      let (ep, lvars) ← expCompile fuel e1 lvars
      .ok ((Program.new.extend ep).emit (.pragma pname), lvars)
    | .importE names filename => do
      let (fp, lvars) ← expCompile fuel filename lvars
      .ok ((Program.new.extend fp).emit (.importNames names),
        lvars ++ names)
    | .sequence es => do
      let n := lvars.length
      let (p, lvars, m) ← compileSequenceExprs fuel es lvars Program.new 0
      let p := if lvars.length > n then
          p.emit (.localDrop (Int.ofNat (lvars.length - n)))
        else p
      let lvars := lvars.take n
      if m > 1 then .ok (p.emit (.compose (Int.ofNat m)), lvars)
      else if m == 0 then .ok (p.emit (literalInstr nullV), lvars)
      else .ok (p, lvars)
    | .inlineSequence es => do
      let (p, lvars) ← compileExprList fuel es lvars Program.new
      .ok (p.emit (.compose (Int.ofNat es.length)), lvars)

/-- The shared `BinaryOperation._compile` shape: left, right, then the
operator instruction. -/
def compileBin : Nat → Expression → Expression → Instr → List String →
    Except Fatal (Program × List String)
  | 0, _, _, _, _ => .error .noFuel
  | fuel + 1, l, r, op, lvars => do
    let (lp, lvars) ← expCompile fuel l lvars
    let (rp, lvars) ← expCompile fuel r lvars
    .ok (((Program.new.extend lp).extend rp).emit op, lvars)

/-- Compile a list of expressions, extending the program with each. -/
def compileExprList : Nat → List Expression → List String → Program →
    Except Fatal (Program × List String)
  | 0, _, _, _ => .error .noFuel
  | _, [], lvars, p => .ok (p, lvars)
  | fuel + 1, e :: rest, lvars, p => do
    let (ep, lvars) ← expCompile fuel e lvars
    compileExprList fuel rest lvars (p.extend ep)

/-- Compile keyword arguments: each value expression in turn. -/
def compileKwargs : Nat → List (String × Expression) → List String →
    Program → Except Fatal (Program × List String)
  | 0, _, _, _ => .error .noFuel
  | _, [], lvars, p => .ok (p, lvars)
  | fuel + 1, (_, e) :: rest, lvars, p => do
    let (ep, lvars) ← expCompile fuel e lvars
    compileKwargs fuel rest lvars (p.extend ep)

/-- Compile attribute bindings: each value expression followed by its
`Attribute` instruction. -/
def compileAttrBindings : Nat → List (String × Expression) →
    List String → Program → Except Fatal (Program × List String)
  | 0, _, _, _ => .error .noFuel
  | _, [], lvars, p => .ok (p, lvars)
  | fuel + 1, (nm, e) :: rest, lvars, p => do
    let (ep, lvars) ← expCompile fuel e lvars
    compileAttrBindings fuel rest lvars ((p.extend ep).emit (.attribute nm))

/-- Compile `Let` poly-bindings: each value expression, a `LocalPush` of
its name count, and the names appended to `lvars`. -/
def compilePolyBindings : Nat → List (List String × Expression) →
    List String → Program → Except Fatal (Program × List String)
  | 0, _, _, _ => .error .noFuel
  | _, [], lvars, p => .ok (p, lvars)
  | fuel + 1, (names, e) :: rest, lvars, p => do
    let (ep, lvars) ← expCompile fuel e lvars
    compilePolyBindings fuel rest (lvars ++ names)
      ((p.extend ep).emit (.localPush (Int.ofNat names.length)))

/-- Compile `StoreGlobal` bindings: each value expression followed by a
`StoreGlobal` of its single name. -/
def compileStoreGlobal : Nat → List (String × Expression) →
    List String → Program → Except Fatal (Program × List String)
  | 0, _, _, _ => .error .noFuel
  | _, [], lvars, p => .ok (p, lvars)
  | fuel + 1, (nm, e) :: rest, lvars, p => do
    let (ep, lvars) ← expCompile fuel e lvars
    compileStoreGlobal fuel rest lvars ((p.extend ep).emit (.storeGlobal nm))

/-- Compile `IfElse` tests: condition, `BranchFalse` to the next test,
consequent, `Jump` to the end, label for the next test. -/
def compileIfTests : Nat → List (Expression × Expression) → Int →
    List String → Program → Except Fatal (Program × List String)
  | 0, _, _, _, _ => .error .noFuel
  | _, [], _, lvars, p => .ok (p, lvars)
  | fuel + 1, (cond, then_) :: rest, endL, lvars, p => do
    let (p, nextL) := p.newLabel
    let (cp, lvars) ← expCompile fuel cond lvars
    let p := (p.extend cp).emit (.branchFalse nextL 0)
    let (tp, lvars) ← expCompile fuel then_ lvars
    let p := ((p.extend tp).emit (.jump endL 0)).emit (.label nextL)
    compileIfTests fuel rest endL lvars p

/-- Compile function parameter defaults: a `null` literal for an absent
default, else the default expression. -/
def compileParamDefaults : Nat → List (String × Option Expression) →
    List String → Program → Except Fatal (Program × List String)
  | 0, _, _, _ => .error .noFuel
  | _, [], lvars, p => .ok (p, lvars)
  | fuel + 1, (_, none) :: rest, lvars, p =>
    compileParamDefaults fuel rest lvars (p.emit (literalInstr nullV))
  | fuel + 1, (_, some e) :: rest, lvars, p => do
    let (ep, lvars) ← expCompile fuel e lvars
    compileParamDefaults fuel rest lvars (p.extend ep)

/-- Compile `Sequence` children, counting the non-`Let`/`Import`/`Function`
ones for the final `Compose`. -/
def compileSequenceExprs : Nat → List Expression → List String →
    Program → Nat → Except Fatal (Program × List String × Nat)
  | 0, _, _, _, _ => .error .noFuel
  | _, [], lvars, p, m => .ok (p, lvars, m)
  | fuel + 1, e :: rest, lvars, p, m => do
    let (ep, lvars) ← expCompile fuel e lvars
    compileSequenceExprs fuel rest lvars (p.extend ep)
      (if e.isLetImportFunction then m else m + 1)

end

/-- `Top._compile`: compile every child; a node-modifier chain ending in a
`Search` gets a `Drop`, any other non-`Let`/`Import`/`Function` child gets
an `AppendRoot`; then store every accumulated local as a global and drop
the locals. -/
def topCompileExprs (fuel : Nat) (es : List Expression)
    (lvars : List String) (p : Program) :
    Except Fatal (Program × List String) :=
  match es with
  | [] => .ok (p, lvars)
  | e :: rest => do
    let (ep, lvars) ← expCompile fuel e lvars
    let p := p.extend ep
    let p :=
      if e.isNodeModifier && e.ultimateNode.isSearch then p.emit (.drop 1)
      else if ¬e.isLetImportFunction then p.emit .appendRoot
      else p
    topCompileExprs fuel rest lvars p

def topCompile (fuel : Nat) (t : TopExpr) (lvars : List String) :
    Except Fatal Program := do
  let (p, lvars) ← topCompileExprs fuel t.expressions lvars Program.new
  let p := (lvars.reverse.enum).foldl
    (fun p inm =>
      (p.emit (.localLoad (Int.ofNat inm.1))).emit (.storeGlobal inm.2))
    p
  .ok (if lvars.isEmpty then p
    else p.emit (.localDrop (Int.ofNat lvars.length)))

/-- `Top.compile`: compile, optimise, link. -/
def TopExpr.compile (fuel : Nat) (t : TopExpr) : Except Fatal Program := do
  let p ← topCompile fuel t []
  let p ← p.optimize
  p.link

/-! ## The partial evaluator (`evaluate` methods of `tree.pyx`)

The partial evaluator walks the AST with a `Context` whose `variables`
entries can be a known `Vector`, `None` (declared but unknown), a `Name`
expression (an alias), or a known AST `Function` — the four cases
`Name.evaluate` distinguishes.  The VM's context only ever holds vectors,
so this richer value domain is carried by a separate context type here. -/
inductive VarVal where
  | vec (v : Vec)
  | unknown
  | aliasN (e : Expression)
  | funcE (fname : String) (parameters : List (String × Option Expression))
      (body : Expression)
deriving BEq

/-- The fields of the run `Context` that the partial evaluator touches:
`variables` (with the evaluator's value domain), `errors`, `state` and the
optional `unbound` name set. -/
structure ECtx where
  vars : List (String × VarVal)
  errors : List String
  stateE : Option (List (Vec × Vec))
  unbound : Option (List String)
deriving BEq

/-- `NoOp`, the shared empty literal. -/
def NoOpE : Expression := .literal nullV

def Expression.isLiteral : Expression → Bool
  | .literal _ => true
  | _ => false

def Expression.litValue : Expression → Vec
  | .literal v => v
  | _ => nullV

/-- `isinstance(e, Name)` (`FunctionName` is a `Name`). -/
def Expression.isName : Expression → Bool
  | .name _ | .functionName _ => true
  | _ => false

def Expression.nameOf : Expression → String
  | .name s => s
  | .functionName s => s
  | _ => ""

/-- `isinstance(e, Let)` (`StoreGlobal` is a `Let`). -/
def Expression.isLet : Expression → Bool
  | .let_ _ | .storeGlobal _ => true
  | _ => false

/-- `isinstance(e, MathsBinaryOperation)`. -/
def Expression.isMaths : Expression → Bool
  | .add _ _ | .subtract _ _ | .multiply _ _ | .divide _ _
  | .floorDivide _ _ | .modulo _ _ | .power _ _ => true
  | _ => false

/-- Deconstruct a maths binary operation into its constructor and
operands (for `type(expr)(left, right)` rebuilds). -/
def mathsDecon : Expression →
    Option ((Expression → Expression → Expression) × Expression × Expression)
  | .add l r => some (.add, l, r)
  | .subtract l r => some (.subtract, l, r)
  | .multiply l r => some (.multiply, l, r)
  | .divide l r => some (.divide, l, r)
  | .floorDivide l r => some (.floorDivide, l, r)
  | .modulo l r => some (.modulo, l, r)
  | .power l r => some (.power, l, r)
  | _ => none

/-- Does a vector contain a `Node` element (the `Literal.copynodes`
flag computed by `Literal.__init__`)? -/
def Vec.hasNode : Vec → Bool
  | .nums _ => false
  | .objs os => os.any fun o => match o with | .node _ => true | _ => false

/-- `Vector.isinstance(Node)` (modelled from the spec: every element is a
node; a numeric vector is not). -/
def Vec.isNodeVec : Vec → Bool
  | .nums _ => false
  | .objs os => os.all fun o => match o with | .node _ => true | _ => false

def Vec.nodeIds : Vec → List Nat
  | .nums _ => []
  | .objs os => os.filterMap fun o =>
      match o with | .node id => some id | _ => none

/-- Modelled from the spec: `Node.__setitem__` — store an attribute after
copy-on-write, deleting it when the value is empty (the behaviour the VM's
`Attribute` opcode implements inline). -/
def nodeSetAttr (heap : Heap) (id : Nat) (name : String) (value : Vec) :
    Heap :=
  match heapGet heap id with
  | none => heap
  | some nd =>
    let nd := { nd with attributesShared := false }
    if value.length != 0 then
      heapSet heap id { nd with attributes := dictSet nd.attributes name value }
    else if dictHas nd.attributes name then
      heapSet heap id { nd with attributes := dictDel nd.attributes name }
    else heapSet heap id nd

/-- `Node.add_tag` (modelled from the spec). -/
def nodeAddTag (heap : Heap) (id : Nat) (t : String) : Heap :=
  match heapGet heap id with
  | none => heap
  | some nd => heapSet heap id { nd with tags := setAdd nd.tags t }

/-- `Add.constant_left`: `0 + x → +x`, `lit + (-x) → lit - x`. -/
def addConstantLeft (left : Vec) (right : Expression) : Option Expression :=
  if (left.eqV falseV).as_bool then some (.positive right)
  else
    match right with
    | .negative e => some (.subtract (.literal left) e)
    | _ => none

/-- `Subtract.constant_left`: `0 - x → -x`. -/
def subConstantLeft (left : Vec) (right : Expression) : Option Expression :=
  if (left.eqV falseV).as_bool then some (.negative right) else none

/-- `Subtract.constant_right`: `x - 0 → +x`, `x - lit → x + (-lit)`. -/
def subConstantRight (left : Expression) (right : Vec) : Option Expression :=
  if (right.eqV falseV).as_bool then some (.positive left)
  else some (.add left (.literal right.neg))

/-- `Multiply.constant_left`: `1 * x → +x`, `-1 * x → -x`, distribute a
literal factor into an add/subtract with a literal side, reassociate into
a multiply with a literal side or a divide with a literal numerator, and
fold into a negation. -/
def mulConstantLeft (left : Vec) (right : Expression) : Option Expression :=
  if (left.eqV trueV).as_bool then some (.positive right)
  else if (left.eqV minusoneV).as_bool then some (.negative right)
  else
    match right with
    | .add ml mr =>
      if ml.isLiteral || mr.isLiteral then
        some (.add (.multiply (.literal left) ml)
          (.multiply (.literal left) mr))
      else none
    | .subtract ml mr =>
      if ml.isLiteral || mr.isLiteral then
        some (.subtract (.multiply (.literal left) ml)
          (.multiply (.literal left) mr))
      else none
    | .multiply ml mr =>
      if ml.isLiteral then
        some (.multiply (.multiply (.literal left) ml) mr)
      else if mr.isLiteral then
        some (.multiply ml (.multiply (.literal left) mr))
      else none
    | .divide ml mr =>
      if ml.isLiteral then
        some (.divide (.multiply (.literal left) ml) mr)
      else none
    | .negative e => some (.multiply (.literal left.neg) e)
    | _ => none

/-- `Divide.constant_right`: `x / 1 → +x`, `x / lit → x * (1/lit)`. -/
def divConstantRight (left : Expression) (right : Vec) : Option Expression :=
  if (right.eqV trueV).as_bool then some (.positive left)
  else some (.multiply left (.literal (trueV.truediv right)))

/-- `Power.constant_right`: `x ** 1 → +x`. -/
def powConstantRight (left : Expression) (right : Vec) : Option Expression :=
  if (right.eqV trueV).as_bool then some (.positive left) else none

/-- `And.constant_left`: short-circuit on a literal left operand. -/
def andConstantLeft (left : Vec) (right : Expression) : Option Expression :=
  if left.as_bool then some right else some (.literal left)

/-- `Or.constant_left`. -/
def orConstantLeft (left : Vec) (right : Expression) : Option Expression :=
  if left.as_bool then some (.literal left) else some right

/-- `Xor.constant_left`. -/
def xorConstantLeft (left : Vec) (right : Expression) : Option Expression :=
  if ¬left.as_bool then some right else none

/-- `And.op`. -/
def andOp (l r : Vec) : Vec := if l.as_bool then r else l

/-- `Or.op`. -/
def orOp (l r : Vec) : Vec := if l.as_bool then l else r

/-- `Xor.op`. -/
def xorOp (l r : Vec) : Vec :=
  if ¬l.as_bool then r else if ¬r.as_bool then l else falseV

/-- One gathering step of `sequence_pack`: take the leading run of vector
literals, composing their non-empty values into one literal. -/
def seqPackGather (es : List Expression) : List Vec × List Expression :=
  match es with
  | .literal v :: rest =>
    let (vs, rest') := seqPackGather rest
    (if v.length != 0 then v :: vs else vs, rest')
  | _ => ([], es)

/-- The worklist loop of `sequence_pack`: merge adjacent vector literals,
splice `InlineSequence` children in place, and remember whether a
`Let`/`Import`/`Function` was seen.  Fuel bounds the splicing. -/
def seqPackLoop : Nat → List Expression → List Expression → Bool →
    Option (List Expression × Bool)
  | 0, _, _, _ => none
  | _, [], remaining, hasLet => some (remaining, hasLet)
  | fuel + 1, es, remaining, hasLet =>
    match es with
    | [] => some (remaining, hasLet)
    | .literal v :: rest =>
      let (vs, rest') := seqPackGather (.literal v :: rest)
      let remaining :=
        if vs.isEmpty then remaining
        else remaining ++ [.literal (vecCompose vs)]
      seqPackLoop fuel rest' remaining hasLet
    | .inlineSequence children :: rest =>
      seqPackLoop fuel (children ++ rest) remaining hasLet
    | e :: rest =>
      seqPackLoop fuel rest (remaining ++ [e])
        (hasLet || e.isLetImportFunction)

/-- `sequence_pack`: pack a list of evaluated expressions into one
expression; all-`Let` (or empty) sequences collapse to `NoOp`, sequences
containing a `Let`/`Import`/`Function` stay a `Sequence`, single leftovers
collapse, and the rest become an `InlineSequence`. -/
def sequence_pack (fuel : Nat) (es : List Expression) : Option Expression :=
  match seqPackLoop fuel es [] false with
  | none => none
  | some (remaining, hasLet) =>
    if remaining.isEmpty then some NoOpE
    else if hasLet then
      if remaining.all Expression.isLet then some NoOpE
      else some (.sequence remaining)
    else if remaining.length == 1 then some (remaining.getD 0 NoOpE)
    else some (.inlineSequence remaining)

/-- The literal-folding call loop of `Call.evaluate`: invoke each callable
element of the function vector on the literal arguments; a raised
exception stops the loop (`break`), a non-callable element is skipped. -/
def callFoldObjs (env : Env) (os : List Obj) (vargs : List Vec)
    (kwargsv : List (String × Vec)) : List Expression × Bool :=
  os.foldl
    (fun (acc : List Expression × Bool) o =>
      if acc.2 then acc
      else if o.callableB then
        match o with
        | .builtin nm _ =>
          match env.host nm none vargs
              (if kwargsv.isEmpty then none else some kwargsv) with
          | .ok v => (acc.1 ++ [.literal v], false)
          | .error _ => (acc.1, true)
        | _ => (acc.1, true)
      else acc)
    ([], false)

/-- The trailing-literal application loop of `Attributes.evaluate`: while
the last collected binding (the first in source order) is a literal, pop
it and set it on every node. -/
def attrsApplyTrailing (heap : Heap) (ids : List Nat)
    (acc : List (String × Expression)) : Heap × List (String × Expression) :=
  let revd := acc.reverse
  let run := revd.takeWhile (fun b => b.2.isLiteral)
  let rest := revd.drop run.length
  let heap := run.foldl
    (fun h b => ids.foldl
      (fun h2 id => nodeSetAttr h2 id b.1 b.2.litValue) h)
    heap
  (heap, rest.reverse)

set_option maxHeartbeats 4000000 in
mutual

/-- `Expression.evaluate(context)`: one partial-evaluation step over the
whole AST, following `tree.pyx` case by case.  Fuel decreases on every
recursive evaluation. -/
def evalE (env : Env) : Nat → Expression → ECtx → Heap →
    Except Fatal (Expression × ECtx × Heap)
  | 0, _, _, _ => .error .noFuel
  | fuel + 1, e, ctx, heap =>
    match e with
    | .literal v =>
      if v.hasNode then
        match v.copynodes fuel heap with
        | none => .error .noFuel
        | some (heap, v') => .ok (.literal v', ctx, heap)
      else .ok (e, ctx, heap)
    | .name s => evalName env fuel (.name s) s ctx heap
    | .functionName s => evalName env fuel (.functionName s) s ctx heap
    | .lookup key => do
      let (key', ctx, heap) ← evalE env fuel key ctx heap
      match key' with
      | .literal kv =>
        match ctx.stateE with
        | some st => .ok (.literal ((stateGet st kv).getD nullV), ctx, heap)
        | none => .ok (.lookupLiteral kv.intern, ctx, heap)
      | _ => .ok (.lookup key', ctx, heap)
    | .lookupLiteral k =>
      match ctx.stateE with
      | some st => .ok (.literal ((stateGet st k).getD nullV), ctx, heap)
      | none => .ok (e, ctx, heap)
    | .rangeE e1 e2 e3 => do
      let (a, ctx, heap) ← evalE env fuel e1 ctx heap
      let (b, ctx, heap) ← evalE env fuel e2 ctx heap
      let (c, ctx, heap) ← evalE env fuel e3 ctx heap
      match a, b, c with
      | .literal av, .literal bv, .literal cv =>
        .ok (.literal (fill_range av bv cv), ctx, heap)
      | _, _, _ => .ok (.rangeE a b c, ctx, heap)
    | .negative e1 => do
      let (e', ctx, heap) ← evalE env fuel e1 ctx heap
      match e' with
      | .literal v => .ok (.literal v.neg, ctx, heap)
      | .negative inner => evalE env fuel (.positive inner) ctx heap
      | .multiply ml mr =>
        if ml.isLiteral then
          evalE env fuel (.multiply (.negative ml) mr) ctx heap
        else if mr.isLiteral then
          evalE env fuel (.multiply ml (.negative mr)) ctx heap
        else .ok (.negative e', ctx, heap)
      | .divide ml mr =>
        if ml.isLiteral then
          evalE env fuel (.divide (.negative ml) mr) ctx heap
        else if mr.isLiteral then
          evalE env fuel (.divide ml (.negative mr)) ctx heap
        else .ok (.negative e', ctx, heap)
      | _ => .ok (.negative e', ctx, heap)
    | .positive e1 => do
      let (e', ctx, heap) ← evalE env fuel e1 ctx heap
      match e' with
      | .literal v => .ok (.literal v.posV, ctx, heap)
      | .negative _ => evalE env fuel e' ctx heap
      | .positive _ => evalE env fuel e' ctx heap
      | _ =>
        if e'.isMaths then evalE env fuel e' ctx heap
        else .ok (.positive e', ctx, heap)
    | .notE e1 => do
      let (e', ctx, heap) ← evalE env fuel e1 ctx heap
      match e' with
      | .literal v =>
        .ok (.literal (if v.as_bool then falseV else trueV), ctx, heap)
      | _ => .ok (.notE e', ctx, heap)
    | .add l r => evalBinary env fuel .add Vec.add
        addConstantLeft (fun le rv => addConstantLeft rv le) true l r ctx
        heap
    | .subtract l r => evalBinary env fuel .subtract Vec.sub
        subConstantLeft subConstantRight true l r ctx heap
    | .multiply l r => evalBinary env fuel .multiply Vec.mul
        mulConstantLeft (fun le rv => mulConstantLeft rv le) true l r ctx
        heap
    | .divide l r => evalBinary env fuel .divide Vec.truediv
        (fun _ _ => none) divConstantRight true l r ctx heap
    | .floorDivide l r => evalBinary env fuel .floorDivide Vec.floordiv
        (fun _ _ => none) (fun _ _ => none) true l r ctx heap
    | .modulo l r => evalBinary env fuel .modulo Vec.modV
        (fun _ _ => none) (fun _ _ => none) true l r ctx heap
    | .power l r => evalBinary env fuel .power Vec.powV
        (fun _ _ => none) powConstantRight true l r ctx heap
    | .equalTo l r => evalBinary env fuel .equalTo Vec.eqV
        (fun _ _ => none) (fun _ _ => none) false l r ctx heap
    | .notEqualTo l r => evalBinary env fuel .notEqualTo Vec.neV
        (fun _ _ => none) (fun _ _ => none) false l r ctx heap
    | .lessThan l r => evalBinary env fuel .lessThan Vec.ltV
        (fun _ _ => none) (fun _ _ => none) false l r ctx heap
    | .greaterThan l r => evalBinary env fuel .greaterThan Vec.gtV
        (fun _ _ => none) (fun _ _ => none) false l r ctx heap
    | .lessThanOrEqualTo l r => evalBinary env fuel .lessThanOrEqualTo
        Vec.leV (fun _ _ => none) (fun _ _ => none) false l r ctx heap
    | .greaterThanOrEqualTo l r => evalBinary env fuel .greaterThanOrEqualTo
        Vec.geV (fun _ _ => none) (fun _ _ => none) false l r ctx heap
    | .andE l r => evalBinary env fuel .andE andOp andConstantLeft
        (fun _ _ => none) false l r ctx heap
    | .orE l r => evalBinary env fuel .orE orOp orConstantLeft
        (fun _ _ => none) false l r ctx heap
    | .xorE l r => evalBinary env fuel .xorE xorOp xorConstantLeft
        (fun _ _ => none) false l r ctx heap
    | .slice e1 idx => do
      let (e', ctx, heap) ← evalE env fuel e1 ctx heap
      let (idx', ctx, heap) ← evalE env fuel idx ctx heap
      match e', idx' with
      | .literal ev, .literal iv => .ok (.literal (ev.sliceV iv), ctx, heap)
      | _, .literal iv => .ok (.fastSlice e' iv, ctx, heap)
      | _, _ => .ok (.slice e' idx', ctx, heap)
    | .fastSlice e1 idx => do
      let (e', ctx, heap) ← evalE env fuel e1 ctx heap
      .ok (.fastSlice e' idx, ctx, heap)
    | .call fn args kwargs => do
      let (function, ctx, heap) ← evalE env fuel fn ctx heap
      let lit0 :=
        match function with
        | .literal v => !v.isNums
        | _ => false
      let r ← args.foldlM
        (fun (acc : List Expression × Bool × ECtx × Heap) a => do
          let (a', ctx, heap) ← evalE env fuel a acc.2.2.1 acc.2.2.2
          pure (acc.1 ++ [a'], acc.2.1 && a'.isLiteral, ctx, heap))
        ([], lit0, ctx, heap)
      let (args', lit1, ctx, heap) := r
      let r2 ← kwargs.foldlM
        (fun (acc : List (String × Expression) × Bool × ECtx × Heap) b =>
          do
          let (b', ctx, heap) ← evalE env fuel b.2 acc.2.2.1 acc.2.2.2
          pure (acc.1 ++ [(b.1, b')], acc.2.1 && b'.isLiteral, ctx, heap))
        ([], lit1, ctx, heap)
      let (kwargs', lit, ctx, heap) := r2
      match function with
      | .functionName fname =>
        match dictGet ctx.vars fname with
        | some (.funcE _ parameters body) =>
          let kwdict := kwargs'.foldl
            (fun d b => dictSet d b.1 b.2) []
          let bindings := parameters.enum.map fun ip =>
            match ip with
            | (i, (pname, pdflt)) =>
              if h : i < args'.length then
                ([pname], args'.get ⟨i, h⟩)
              else
                match dictGet kwdict pname with
                | some ke => ([pname], ke)
                | none =>
                  match pdflt with
                  | some d => ([pname], d)
                  | none => ([pname], NoOpE)
          evalE env fuel (.inlineLet body bindings) ctx heap
        | _ => .error (.err "FunctionName is not bound to a Function")
      | _ =>
        let folded : Option (List Expression) :=
          if lit then
            match function with
            | .literal (.objs os) =>
              let vargs := args'.map Expression.litValue
              let kv := kwargs'.foldl
                (fun d b => dictSet d b.1 b.2.litValue) []
              match callFoldObjs env os vargs kv with
              | (results, false) => some results
              | (_, true) => none
            | _ => none
          else none
        match folded with
        | some results =>
          match sequence_pack fuel results with
          | some packed => .ok (packed, ctx, heap)
          | none => .error .noFuel
        | none => .ok (.call function args' kwargs', ctx, heap)
    | .tag n t => do
      let (n', ctx, heap) ← evalE env fuel n ctx heap
      match n' with
      | .literal v =>
        if v.isNodeVec then
          let heap := v.nodeIds.foldl (fun h id => nodeAddTag h id t) heap
          .ok (n', ctx, heap)
        else .ok (.tag n' t, ctx, heap)
      | _ => .ok (.tag n' t, ctx, heap)
    | .attributes _ _ => evalAttributes env fuel e ctx heap
    | .fastAttributes _ _ => evalAttributes env fuel e ctx heap
    | .search _ => .ok (e, ctx, heap)
    | .appendE n c => do
      let (n', ctx, heap) ← evalE env fuel n ctx heap
      let (c', ctx, heap) ← evalE env fuel c ctx heap
      match n', c' with
      | .literal nv, .literal cv =>
        if nv.isNodeVec && cv.isNodeVec then
          let r := nv.nodeIds.foldlM
            (fun h pid =>
              cv.nodeIds.foldlM
                (fun h2 cid => do
                  let (h3, cid') ← nodeCopy fuel h2 cid
                  nodeAppend fuel h3 pid cid')
                h)
            heap
          match r with
          | some heap => .ok (n', ctx, heap)
          | none => .error .noFuel
        else .ok (.appendE n' c', ctx, heap)
      | _, _ => .ok (.appendE n' c', ctx, heap)
    | .prependE n c => do
      let (n', ctx, heap) ← evalE env fuel n ctx heap
      let (c', ctx, heap) ← evalE env fuel c ctx heap
      match n', c' with
      | .literal nv, .literal cv =>
        if nv.isNodeVec && cv.isNodeVec then
          let r := nv.nodeIds.foldlM
            (fun h pid =>
              cv.nodeIds.reverse.foldlM
                (fun h2 cid => do
                  let (h3, cid') ← nodeCopy fuel h2 cid
                  nodeInsert fuel h3 pid cid')
                h)
            heap
          match r with
          | some heap => .ok (n', ctx, heap)
          | none => .error .noFuel
        else .ok (.prependE n' c', ctx, heap)
      | _, _ => .ok (.prependE n' c', ctx, heap)
    | .let_ bindings => do
      let (remaining, ctx, heap) ← letBindings env fuel bindings [] ctx heap
      if remaining.isEmpty then .ok (NoOpE, ctx, heap)
      else .ok (.let_ remaining, ctx, heap)
    | .storeGlobal bindings => do
      let (remaining, ctx, heap) ← letBindings env fuel
        (bindings.map fun b => ([b.1], b.2)) [] ctx heap
      if remaining.isEmpty then .ok (NoOpE, ctx, heap)
      else .ok (.let_ remaining, ctx, heap)
    | .inlineLet body bindings => do
      let saved := ctx.vars
      let (remaining, ctx, heap) ← letBindings env fuel bindings [] ctx heap
      let (body', ctx, heap) ← evalE env fuel body ctx heap
      let ctx := { ctx with vars := saved }
      if remaining.isEmpty then .ok (body', ctx, heap)
      else .ok (.inlineLet body' remaining, ctx, heap)
    | .for_ names source body => do
      let (source', ctx, heap) ← evalE env fuel source ctx heap
      let saved := ctx.vars
      match source' with
      | .literal values => do
        let (acc, ctx, heap) ← forUnroll env fuel names values body 0 []
          ctx heap
        let ctx := { ctx with vars := saved }
        match sequence_pack fuel acc with
        | some packed => .ok (packed, ctx, heap)
        | none => .error .noFuel
      | _ => do
        let ctx := { ctx with vars := (names.foldl
          (fun vs nm => dictSet vs nm .unknown) ctx.vars) }
        let (body', ctx, heap) ← evalE env fuel body ctx heap
        let ctx := { ctx with vars := saved }
        .ok (.for_ names source' body', ctx, heap)
    | .ifElse tests else_ => do
      let r ← ifTests env fuel tests [] ctx heap
      match r with
      | (some result, _, ctx, heap) => .ok (result, ctx, heap)
      | (none, remaining, ctx, heap) =>
        match else_ with
        | some els => do
          let (els', ctx, heap) ← evalE env fuel els ctx heap
          if remaining.isEmpty then .ok (els', ctx, heap)
          else .ok (.ifElse remaining (some els'), ctx, heap)
        | none =>
          if remaining.isEmpty then .ok (NoOpE, ctx, heap)
          else .ok (.ifElse remaining none, ctx, heap)
    | .functionE fname parameters body => do
      let r ← parameters.foldlM
        (fun (acc : List (String × Option Expression) × Bool × ECtx × Heap)
            p =>
          match p.2 with
          | some d => do
            let (d', ctx, heap) ← evalE env fuel d acc.2.2.1 acc.2.2.2
            pure (acc.1 ++ [(p.1, some d')], acc.2.1 && d'.isLiteral, ctx,
              heap)
          | none => pure (acc.1 ++ [(p.1, none)], acc.2.1, acc.2.2.1,
              acc.2.2.2))
        ([], true, ctx, heap)
      let (parameters', lit, ctx, heap) := r
      let saved := ctx.vars
      let savedUnbound := ctx.unbound
      let ctx := { ctx with
        unbound := some []
        vars := saved.filter fun kv => !(kv.2 == VarVal.unknown) }
      let ctx := { ctx with vars := (parameters'.foldl
        (fun vs p => dictSet vs p.1 .unknown) ctx.vars) }
      let (body', ctx, heap) ← evalE env fuel body ctx heap
      let function := Expression.functionE fname parameters' body'
      let tempUnbound := (ctx.unbound).getD []
      let ctx := { ctx with vars := (dictSet saved fname
        (if lit && tempUnbound.isEmpty then
          VarVal.funcE fname parameters' body'
        else VarVal.unknown)) }
      let ctx := { ctx with unbound := (match savedUnbound with
        | some outer =>
          some ((tempUnbound.filter fun nm => !dictHas saved nm).foldl
            setAdd outer)
        | none => none) }
      .ok (function, ctx, heap)
    | .pragma pname e1 => do
      let (e', ctx, heap) ← evalE env fuel e1 ctx heap
      .ok (.pragma pname e', ctx, heap)
    | .importE names filename => do
      let ctx := { ctx with vars := (names.foldl
        (fun vs nm => dictSet vs nm .unknown) ctx.vars) }
      let (f', ctx, heap) ← evalE env fuel filename ctx heap
      .ok (.importE names f', ctx, heap)
    | .sequence es => do
      let saved := ctx.vars
      let r ← es.foldlM
        (fun (acc : List Expression × ECtx × Heap) e1 => do
          let (e', ctx, heap) ← evalE env fuel e1 acc.2.1 acc.2.2
          pure (acc.1 ++ [e'], ctx, heap))
        ([], ctx, heap)
      let (es', ctx, heap) := r
      let ctx := { ctx with vars := saved }
      match sequence_pack fuel es' with
      | some packed => .ok (packed, ctx, heap)
      | none => .error .noFuel
    | .inlineSequence es => do
      let r ← es.foldlM
        (fun (acc : List Expression × ECtx × Heap) e1 => do
          let (e', ctx, heap) ← evalE env fuel e1 acc.2.1 acc.2.2
          pure (acc.1 ++ [e'], ctx, heap))
        ([], ctx, heap)
      let (es', ctx, heap) := r
      match sequence_pack fuel es' with
      | some packed => .ok (packed, ctx, heap)
      | none => .error .noFuel

/-- `Name.evaluate` (shared by `FunctionName`): a known vector folds to a
literal (with nodes copied), a known function becomes a `FunctionName`, an
alias is resolved recursively, a declared-unknown name stays; otherwise a
static builtin folds, a dynamic builtin stays, and an unbound name is
recorded in `unbound` (staying symbolic) or recorded as an error and
replaced by `NoOp`. -/
def evalName (env : Env) :
    Nat → Expression → String → ECtx → Heap →
    Except Fatal (Expression × ECtx × Heap)
  | 0, _, _, _, _ => .error .noFuel
  | fuel + 1, self, s, ctx, heap =>
  match dictGet ctx.vars s with
  | some val =>
    match val with
    | .unknown => .ok (self, ctx, heap)
    | .funcE _ _ _ => .ok (.functionName s, ctx, heap)
    | .aliasN a => evalE env fuel a ctx heap
    | .vec v =>
      match v.copynodes fuel heap with
      | none => .error .noFuel
      | some (heap, v') => .ok (.literal v', ctx, heap)
  | none =>
    match dictGet (static_builtins env) s with
    | some v => .ok (.literal v, ctx, heap)
    | none =>
      if dictHas (dynamic_builtins env) s then .ok (self, ctx, heap)
      else
        match ctx.unbound with
        | some ub =>
          .ok (self, { ctx with unbound := some (setAdd ub s) }, heap)
        | none =>
          .ok (NoOpE, { ctx with errors := (setAdd ctx.errors
            ("Unbound name '" ++ s ++ "'")) }, heap)

/-- `BinaryOperation.evaluate` with the `MathsBinaryOperation` wrapper:
fold two literal operands with `opV`; a literal operand on one side may
rewrite through `constant_left`/`constant_right` and re-evaluate;
otherwise rebuild.  For maths operations, a `Positive` operand of a maths
result is stripped and the result re-evaluated. -/
def evalBinary (env : Env) : Nat →
    (Expression → Expression → Expression) → (Vec → Vec → Vec) →
    (Vec → Expression → Option Expression) →
    (Expression → Vec → Option Expression) → Bool →
    Expression → Expression → ECtx → Heap →
    Except Fatal (Expression × ECtx × Heap)
  | 0, _, _, _, _, _, _, _, _, _ => .error .noFuel
  | fuel + 1, mk, opV, cl, cr, isMaths, l, r, ctx, heap => do
    let (l', ctx, heap) ← evalE env fuel l ctx heap
    let (r', ctx, heap) ← evalE env fuel r ctx heap
    let base ←
      match l', r' with
      | .literal lv, .literal rv => pure (Expression.literal (opV lv rv),
          ctx, heap)
      | .literal lv, _ =>
        match cl lv r' with
        | some e2 => evalE env fuel e2 ctx heap
        | none => pure (mk l' r', ctx, heap)
      | _, .literal rv =>
        match cr l' rv with
        | some e2 => evalE env fuel e2 ctx heap
        | none => pure (mk l' r', ctx, heap)
      | _, _ => pure (mk l' r', ctx, heap)
    if isMaths then
      let (expr, ctx, heap) := base
      match mathsDecon expr with
      | some (mk', l2, r2) =>
        match l2, r2 with
        | .positive pe, _ => evalE env fuel (mk' pe r2) ctx heap
        | _, .positive pe => evalE env fuel (mk' l2 pe) ctx heap
        | _, _ => .ok (expr, ctx, heap)
      | none => .ok (expr, ctx, heap)
    else pure base

/-- `Let.evaluate`'s binding loop (shared by `StoreGlobal` and
`InlineLet`): a literal binds its value (itemised over several names), a
different-named `Name` binds an alias, a same-named `Name` is dropped, and
anything else marks the names unknown and stays in `remaining`. -/
def letBindings (env : Env) : Nat → List (List String × Expression) →
    List (List String × Expression) → ECtx → Heap →
    Except Fatal (List (List String × Expression) × ECtx × Heap)
  | 0, _, _, _, _ => .error .noFuel
  | _, [], remaining, ctx, heap => .ok (remaining, ctx, heap)
  | fuel + 1, (names, expr) :: rest, remaining, ctx, heap => do
    let (e', ctx, heap) ← evalE env fuel expr ctx heap
    match e' with
    | .literal v =>
      let ctx :=
        if names.length == 1 then
          { ctx with vars := dictSet ctx.vars (names.getD 0 "") (.vec v) }
        else
          { ctx with vars := ((names.enum).foldl
            (fun vs inm => dictSet vs inm.2 (.vec (v.item
              (Int.ofNat inm.1)))) ctx.vars) }
      letBindings env fuel rest remaining ctx heap
    | _ =>
      if e'.isName ∧ names.length == 1 then
        let nm := names.getD 0 ""
        let ctx :=
          if e'.nameOf ≠ nm then
            { ctx with vars := dictSet ctx.vars nm (.aliasN e') }
          else ctx
        letBindings env fuel rest remaining ctx heap
      else
        let ctx := { ctx with vars := (names.foldl
          (fun vs nm => dictSet vs nm .unknown) ctx.vars) }
        letBindings env fuel rest (remaining ++ [(names, e')]) ctx heap

/-- `For.evaluate`'s unrolling loop over a literal source. -/
def forUnroll (env : Env) : Nat → List String → Vec → Expression → Int →
    List Expression → ECtx → Heap →
    Except Fatal (List Expression × ECtx × Heap)
  | 0, _, _, _, _, _, _, _ => .error .noFuel
  | fuel + 1, names, values, body, i, acc, ctx, heap =>
    if i < (values.length : Int) then do
      let st := names.foldl
        (fun (st : List (String × VarVal) × Int) nm =>
          (dictSet st.1 nm (.vec (values.item st.2)), st.2 + 1))
        (ctx.vars, i)
      let ctx := { ctx with vars := st.1 }
      let (body', ctx, heap) ← evalE env fuel body ctx heap
      forUnroll env fuel names values body st.2 (acc ++ [body']) ctx heap
    else .ok (acc, ctx, heap)

/-- `IfElse.evaluate`'s test loop: evaluate each condition and consequent;
a literally-true condition returns early (with any remaining symbolic
tests wrapped around it), a literally-false one is dropped. -/
def ifTests (env : Env) : Nat → List (Expression × Expression) →
    List (Expression × Expression) → ECtx → Heap →
    Except Fatal (Option Expression × List (Expression × Expression) ×
      ECtx × Heap)
  | 0, _, _, _, _ => .error .noFuel
  | _, [], remaining, ctx, heap => .ok (none, remaining, ctx, heap)
  | fuel + 1, (cond, then_) :: rest, remaining, ctx, heap => do
    let (cond', ctx, heap) ← evalE env fuel cond ctx heap
    let (then', ctx, heap) ← evalE env fuel then_ ctx heap
    match cond' with
    | .literal cv =>
      if cv.as_bool then
        if remaining.isEmpty then .ok (some then', remaining, ctx, heap)
        else .ok (some (.ifElse remaining (some then')), remaining, ctx,
          heap)
      else ifTests env fuel rest remaining ctx heap
    | _ => ifTests env fuel rest (remaining ++ [(cond', then')]) ctx heap

/-- `Attributes.evaluate` (shared by `FastAttributes`): collect the whole
attribute chain's bindings (evaluated under a fresh `unbound` set), apply
the leading literal bindings to a literal node, re-evaluate the rest with
the node's attributes joining the scope when exactly one node and unbound
names are involved, and rebuild `FastAttributes` when the bindings were
closed, `Attributes` otherwise. -/
def evalAttributes (env : Env) : Nat → Expression → ECtx → Heap →
    Except Fatal (Expression × ECtx × Heap)
  | 0, _, _, _ => .error .noFuel
  | fuel + 1, e, ctx, heap => do
    let savedUnbound := ctx.unbound
    let ctx := { ctx with unbound := some [] }
    let (node, acc, ctx, heap) ← attrsCollect env fuel e [] ctx heap
    let fast := ((ctx.unbound).getD []).isEmpty
    let unboundNames := !fast
    let ctx := { ctx with unbound := savedUnbound }
    let (node', ctx, heap) ← evalE env fuel node ctx heap
    let (acc, ctx, heap) ←
      match node' with
      | .literal nv =>
        if nv.isNodeVec then do
          let (heap, acc) := attrsApplyTrailing heap nv.nodeIds acc
          if unboundNames ∧ ¬acc.isEmpty ∧ nv.length == 1 then
            match nv.nodeIds with
            | [nid] => do
              let saved := ctx.vars
              let attrNames :=
                match heapGet heap nid with
                | some nd => nd.attributes.map Prod.fst
                | none => []
              let ctx := { ctx with vars := (attrNames.foldl
                (fun vs attr =>
                  if dictHas vs attr then vs
                  else
                    match heapGet heap nid with
                    | some nd =>
                      match dictGet nd.attributes attr with
                      | some v => dictSet vs attr (.vec v)
                      | none => vs
                    | none => vs)
                saved) }
              let (acc, ctx, heap) ← attrsRescue env fuel nid acc ctx heap
              let ctx := { ctx with vars := saved }
              pure (acc, ctx, heap)
            | _ => pure (acc, ctx, heap)
          else pure (acc, ctx, heap)
        else pure (acc, ctx, heap)
      | _ => pure (acc, ctx, heap)
    if acc.isEmpty then .ok (node', ctx, heap)
    else if fast then .ok (.fastAttributes node' acc.reverse, ctx, heap)
    else .ok (.attributes node' acc.reverse, ctx, heap)

/-- The chain walk of `Attributes.evaluate`: while the node is an
`Attributes`, evaluate its bindings in reverse order onto the
accumulator. -/
def attrsCollect (env : Env) : Nat → Expression →
    List (String × Expression) → ECtx → Heap →
    Except Fatal (Expression × List (String × Expression) × ECtx × Heap)
  | 0, _, _, _, _ => .error .noFuel
  | fuel + 1, e, acc, ctx, heap =>
    match e with
    | .attributes inner bindings => do
      let r ← bindings.reverse.foldlM
        (fun (st : List (String × Expression) × ECtx × Heap) b => do
          let (b', ctx, heap) ← evalE env fuel b.2 st.2.1 st.2.2
          pure (st.1 ++ [(b.1, b')], ctx, heap))
        (acc, ctx, heap)
      attrsCollect env fuel inner r.1 r.2.1 r.2.2
    | .fastAttributes inner bindings => do
      let r ← bindings.reverse.foldlM
        (fun (st : List (String × Expression) × ECtx × Heap) b => do
          let (b', ctx, heap) ← evalE env fuel b.2 st.2.1 st.2.2
          pure (st.1 ++ [(b.1, b')], ctx, heap))
        (acc, ctx, heap)
      attrsCollect env fuel inner r.1 r.2.1 r.2.2
    | _ => .ok (e, acc, ctx, heap)

/-- The node-scope re-evaluation loop of `Attributes.evaluate`: pop the
last collected binding, re-evaluate it with the node's attributes in
scope; a literal result is stored on the node (and joins the scope), a
symbolic one is pushed back and stops the loop. -/
def attrsRescue (env : Env) : Nat → Nat → List (String × Expression) →
    ECtx → Heap →
    Except Fatal (List (String × Expression) × ECtx × Heap)
  | 0, _, _, _, _ => .error .noFuel
  | fuel + 1, nid, acc, ctx, heap =>
    match acc.getLast? with
    | none => .ok (acc, ctx, heap)
    | some (nm, expr) => do
      let acc := acc.dropLast
      let (e', ctx, heap) ← evalE env fuel expr ctx heap
      match e' with
      | .literal v =>
        let heap := nodeSetAttr heap nid nm v
        let ctx :=
          if dictHas ctx.vars nm then ctx
          else { ctx with vars := dictSet ctx.vars nm (.vec v) }
        attrsRescue env fuel nid acc ctx heap
      | _ => .ok (acc ++ [(nm, e')], ctx, heap)

end

/-- `Top.evaluate`: evaluate every child, dropping empty literals; then
append a `StoreGlobal` of every variable that settled to a vector. -/
def topEval (env : Env) (fuel : Nat) (t : TopExpr) (ctx : ECtx)
    (heap : Heap) : Except Fatal (TopExpr × ECtx × Heap) := do
  let r ← t.expressions.foldlM
    (fun (acc : List Expression × ECtx × Heap) e => do
      let (e', ctx, heap) ← evalE env fuel e acc.2.1 acc.2.2
      if e'.isLiteral ∧ e'.litValue.length == 0 then
        pure (acc.1, ctx, heap)
      else pure (acc.1 ++ [e'], ctx, heap))
    ([], ctx, heap)
  let (es, ctx, heap) := r
  let bindings := ctx.vars.filterMap fun kv =>
    match kv.2 with
    | .vec v => some (kv.1, Expression.literal v)
    | _ => none
  let es := if bindings.isEmpty then es else es ++ [.storeGlobal bindings]
  .ok (⟨es⟩, ctx, heap)

/-- `Top.simplify(state, variables, undefined)`: run `Top.evaluate` over a
context holding the given variables (and the undefined names as unknown);
any exception (here: any fatal result, including fuel exhaustion) is
caught and the unsimplified tree returned; partial-evaluation errors are
only logged. -/
def TopExpr.simplify (env : Env) (fuel : Nat) (t : TopExpr) (heap : Heap)
    (state : Option (List (Vec × Vec)) := none)
    (vars : List (String × Vec) := []) (undefined : List String := []) :
    TopExpr × Heap :=
  let contextVars := undefined.foldl
    (fun vs nm => dictSet vs nm VarVal.unknown)
    (vars.map fun kv => (kv.1, VarVal.vec kv.2))
  let ctx : ECtx :=
    { vars := contextVars, errors := [], stateE := state, unbound := none }
  match topEval env fuel t ctx heap with
  | .ok (t', _, heap') => (t', heap')
  | .error _ => (t, heap)


/-- The kinds of the graph root's children, in document order (a
convenient projection of the produced scene graph). -/
def graphChildKinds (ctx : Ctx) (heap : Heap) : List String :=
  match heapGet heap ctx.graphRoot with
  | none => []
  | some rd => rd.children.map fun c =>
      match heapGet heap c with
      | some cd => cd.kind
      | none => ""

/-! ## Specification-side relations and concrete example material -/

/-- One peephole rewrite on adjacent instructions, as §4.5 of the spec
states them: fuse `Compose(n); Compose(m)` to `Compose(n+m-1)`,
`Compose(n); Append(m)` to `Append(n+m-1)`, `Mul; Add` to `MulAdd`, and
drop an empty-vector `Literal` together with the `Append`/`AppendRoot`
that follows it. -/
inductive OptStep : List Instr → List Instr → Prop
  | composeCompose (l r : List Instr) (a b : Int) :
      OptStep (l ++ [.compose a, .compose b] ++ r)
        (l ++ [.compose (b - 1 + a)] ++ r)
  | composeAppend (l r : List Instr) (a b : Int) :
      OptStep (l ++ [.compose a, .append b] ++ r)
        (l ++ [.append (b - 1 + a)] ++ r)
  | mulAddFuse (l r : List Instr) :
      OptStep (l ++ [.mul, .add] ++ r) (l ++ [.mulAdd] ++ r)
  | dropEmptyAppend (l r : List Instr) (v : Vec) (n : Int) :
      v.length = 0 →
      OptStep (l ++ [.literal v, .append n] ++ r) (l ++ r)
  | dropEmptyAppendRoot (l r : List Instr) (v : Vec) :
      v.length = 0 →
      OptStep (l ++ [.literal v, .appendRoot] ++ r) (l ++ r)

/-- Zero or more peephole rewrites. -/
def OptRewrites : List Instr → List Instr → Prop :=
  Relation.ReflTransGen OptStep

/-- The claimed name-resolution order for the `Name` instruction, written
from the claim: program-level variables, then static builtins, then
dynamic builtins, then the optional node scope. -/
def resolveNameSpec (env : Env) (vars : List (String × Vec)) (heap : Heap)
    (nodeScope : Option Nat) (s : String) : Option Vec :=
  match dictGet vars s with
  | some v => some v
  | none =>
    match dictGet (static_builtins env) s with
    | some v => some v
    | none =>
      match dictGet (dynamic_builtins env) s with
      | some v => some v
      | none =>
        match nodeScope with
        | some id =>
          match heapGet heap id with
          | some nd => dictGet nd.attributes s
          | none => none
        | none => none

/-- The instructions `Top._compile` appends after one child's code: `Drop`
for a node-modifier chain ending in a `Search`, nothing for a
`Let`/`Import`/`Function`, `AppendRoot` otherwise. -/
def topGlue (e : Expression) : List Instr :=
  if e.isNodeModifier && e.ultimateNode.isSearch then [.drop 1]
  else if e.isLetImportFunction then [] else [.appendRoot]

/-- The claimed shape of the child part of a compiled `Top`: one segment
per child, holding the child's compiled code (labels shifted past the
labels already allocated) followed by its glue, threading the
local-variable stack and the label counter left to right. -/
inductive TopSegs : List Expression → List String → Int →
    List String → Int → List (List Instr) → Prop
  | nil (lv : List String) (nl : Int) : TopSegs [] lv nl lv nl []
  | cons (e : Expression) (rest : List Expression) (lv lv' lvf : List String)
      (nl nlf : Int) (cp : Program) (segs : List (List Instr)) (cf : Nat) :
      expCompile cf e lv = .ok (cp, lv') →
      TopSegs rest lv' (nl + cp.nextLabel - 1) lvf nlf segs →
      TopSegs (e :: rest) lv nl lvf nlf
        ((cp.instructions.map (Instr.shiftLabels (nl - 1)) ++ topGlue e)
          :: segs)

/-- The `StoreGlobal`/`LocalDrop` epilogue `Top._compile` emits for the
accumulated locals. -/
def topEpilogue (lvars : List String) : List Instr :=
  (lvars.reverse.enum.flatMap fun inm =>
    [.localLoad (Int.ofNat inm.1), .storeGlobal inm.2]) ++
  (if lvars.isEmpty then [] else [.localDrop (Int.ofNat lvars.length)])

/-- A host environment with no loadable modules, no host functions, and
empty builtin function tables (the core builtins `true`/`false`/`null` and
`debug` are always present). -/
def emptyEnv : Env :=
  { loader := fun _ _ => none, host := fun _ _ _ _ => .error "no host",
    staticFns := [], noiseFns := [], dynFns := [] }

/-- A bare node of the given kind (a template for node literals). -/
def bareNode (kind : String) : NodeData :=
  { kind := kind, tags := [], attributes := [], attributesShared := false,
    parent := none, children := [] }

/-- A context with no variables over an empty state (a convenient base
configuration for single-instruction executions). -/
def baseCtx : Ctx :=
  { vars := [], pragmas := [], errors := [], logs := [],
    stateD := some [], graphRoot := 0, path := none, parentPaths := [],
    unbound := none }

/-- A one-instruction linked program. -/
def oneInstr (i : Instr) : Program := .mk [i] true 1 none

/-- The two-node template heap of the semantic-preservation
counterexample. -/
def exC1Heap : Heap := [bareNode "a", bareNode "b"]

/-- The semantic-preservation counterexample program: an `if` on the
run-time variable `x` choosing between a node of kind `a` and a node of
kind `b`. -/
def exC1Top : TopExpr :=
  ⟨[.ifElse [(.name "x", .literal (.objs [.node 0]))]
    (some (.literal (.objs [.node 1])))]⟩

/-- The run-time variables of the counterexample: `x` bound to 1. -/
def exC1Vars : List (String × Vec) := [("x", Vec.nums [1])]

/-- The graph kinds produced by compiling and running the counterexample
program directly. -/
def exC1KindsOriginal : List String :=
  match exC1Top.compile 100 with
  | .ok p =>
    match p.run emptyEnv 100 exC1Heap none (some exC1Vars) with
    | .ok (ctx, heap) => graphChildKinds ctx heap
    | .error _ => []
  | .error _ => []

/-- The graph kinds produced by simplifying first (with `simplify()`'s
default arguments, as the claim states), then compiling and running with
the same state and variables. -/
def exC1KindsSimplified : List String :=
  let r := TopExpr.simplify emptyEnv 60 exC1Top exC1Heap
  match r.1.compile 100 with
  | .ok p =>
    match p.run emptyEnv 100 r.2 none (some exC1Vars) with
    | .ok (ctx, heap) => graphChildKinds ctx heap
    | .error _ => []
  | .error _ => []

/-- The idempotence counterexample: a nested sequence whose inner sequence
separates two numeric literals by the (dynamic-builtin) name `debug`. -/
def exC9Top : TopExpr :=
  ⟨[.sequence [.literal (.nums [1]),
    .sequence [.literal (.nums [2]), .name "debug"],
    .literal (.nums [3])]]⟩

/-- One round of `simplify` on the idempotence counterexample. -/
def exC9Once : TopExpr × Heap := TopExpr.simplify emptyEnv 50 exC9Top []

/-- Two rounds of `simplify` on the idempotence counterexample. -/
def exC9Twice : TopExpr × Heap :=
  TopExpr.simplify emptyEnv 50 exC9Once.1 exC9Once.2

/-- Module `A` of the circular-import scenario: imports `y` from `B` and
re-exports it (unlinked form). -/
def exModA : Program :=
  .mk [.literal (.objs [.str "B"]), .importNames ["y"],
    .localLoad 0, .storeGlobal "y", .localDrop 1] false 1 (some "A")

/-- Module `B` of the circular-import scenario: imports `x` from `A` and
re-exports it (unlinked form). -/
def exModB : Program :=
  .mk [.literal (.objs [.str "A"]), .importNames ["x"],
    .localLoad 0, .storeGlobal "x", .localDrop 1] false 1 (some "B")

/-- The linked two modules. -/
def exModAL : Program := (exModA.link).toOption.getD Program.new

def exModBL : Program := (exModB.link).toOption.getD Program.new

/-- The loader serving the two modules by filename. -/
def exImportEnv : Env :=
  { loader := fun f _ =>
      if f == "A" then some exModAL
      else if f == "B" then some exModBL else none,
    host := fun _ _ _ _ => .error "no host",
    staticFns := [], noiseFns := [], dynFns := [] }

/-- The result of running module `A` in the circular-import scenario. -/
def exImportRun : Except Fatal (Ctx × Heap) :=
  exModAL.run exImportEnv 100 [] none none

/-- The node state the `Attribute` instruction leaves behind for an empty
value: attribute map un-shared and the name deleted. -/
def attrDelForm (nd : NodeData) (nm : String) : NodeData :=
  { nd with attributesShared := false,
            attributes := dictDel nd.attributes nm }

/-- A one-node heap for the attribute-deletion witness: kind `n` with a
single shared attribute `a`. -/
def exC10Node : NodeData :=
  { kind := "n", tags := [], attributes := [("a", Vec.nums [1])],
    attributesShared := true, parent := none, children := [] }

/-- The final context of the circular-import scenario run. -/
def exImportCtx : Ctx :=
  match exImportRun with | .ok (ctx, _) => ctx | .error _ => baseCtx

/-- Does an error message match "Circular import"? -/
def matchesCircular (e : String) : Bool :=
  "Circular import".data.isPrefixOf e.data

/-- The importing context of the circular-import witness: running inside
module `B`, which was itself imported from `A`. -/
def exC5Ctx : Ctx :=
  { baseCtx with path := some "B", parentPaths := [some "A"] }

/-! ## Theorems -/

/-- C9: the claim that `simplify` is idempotent fails on the code: on the
nested sequence `(1; (2; debug); 3)` one round of `simplify` produces the
inline sequence `[1], [2], debug, [3]` (the literal 1 was committed before
the inner sequence was spliced, so it cannot merge with the literal 2),
and a second round merges the now-adjacent literals into `[1;2]`, giving a
different AST. -/
theorem exC9_simplify_not_idempotent :
    exC9Once.1.expressions =
      [.inlineSequence [.literal (.nums [1]), .literal (.nums [2]),
        .name "debug", .literal (.nums [3])]] ∧
    exC9Twice.1.expressions =
      [.inlineSequence [.literal (.nums [1, 2]),
        .name "debug", .literal (.nums [3])]] ∧
    exC9Once.1 ≠ exC9Twice.1 := by
  refine ⟨rfl, rfl, fun h => ?_⟩
  have h2 : exC9Once.1.expressions = exC9Twice.1.expressions := by rw [h]
  rw [show exC9Once.1.expressions =
      [Expression.inlineSequence [.literal (.nums [1]), .literal (.nums [2]),
        .name "debug", .literal (.nums [3])]] from rfl,
    show exC9Twice.1.expressions =
      [Expression.inlineSequence [.literal (.nums [1, 2]),
        .name "debug", .literal (.nums [3])]] from rfl] at h2
  simp at h2

/-- C1: the claim that `compile(simplify(a)).run(s, v)` and
`compile(a).run(s, v)` produce structurally equal graphs fails on the
code: for the program `if x then (node a) else (node b)` run with
`v = {x: 1}`, the directly compiled program emits a node of kind `a`,
while `simplify()` (with its default empty variables) folds the unbound
`x` to `null`, drops the `then` branch, and the compiled simplified
program emits a node of kind `b`; both runs complete without recorded
errors. -/
theorem exC1_simplify_changes_graph :
    (exC1KindsOriginal == ["a"]) = true ∧
    (exC1KindsSimplified == ["b"]) = true ∧
    (exC1KindsOriginal == exC1KindsSimplified) = false := by
  refine ⟨?_, ?_, ?_⟩ <;> rfl

/-- Pushing the values `f i` for each `i` of a list onto a stack leaves the
mapped list reversed on top. -/
lemma foldl_push_eq (f : Nat → Vec) (l : List Nat) (acc : List Vec) :
    l.foldl (fun lv i => f i :: lv) acc = (l.map f).reverse ++ acc := by
  induction l generalizing acc with
  | nil => rfl
  | cons x xs ih => simp [ih]

/-- C8 counterexample: `LocalPush 2` on a two-vector value stack pops only
one vector (the stack keeps `[3]`), itemising the popped `[1;2]` into two
locals — it does not pop two values as claimed. -/
theorem exC8_counter :
    execLoop emptyEnv 2 (oneInstr (.localPush 2)) 0 baseCtx []
      [Vec.nums [1, 2], Vec.nums [3]] [] [] none none =
      .ok (baseCtx, [], [Vec.nums [3]],
        [Vec.nums [2], Vec.nums [1]]) := by rfl

/-- C8 (amended): `LocalPush n` pops ONE vector from the value stack; for
`n = 1` that vector becomes the new top local, otherwise its items
`item 0 .. item (n-1)` are pushed in index order (so the top local is
`item (n-1)`); `LocalDrop n` removes the top `n` locals. -/
theorem exC8_amended (fuel : Nat) (n : Int) (v : Vec)
    (stack lvars : List Vec) (ctx : Ctx) (heap : Heap) :
    (execLoop emptyEnv (fuel + 2) (oneInstr (.localPush n)) 0 ctx heap
      (v :: stack) lvars [] none none =
      .ok (ctx, heap, stack,
        (if n == 1 then v :: lvars
         else ((List.range n.toNat).map
           (fun i => v.item (Int.ofNat i))).reverse ++ lvars))) ∧
    (0 ≤ n → n ≤ (lvars.length : Int) →
      execLoop emptyEnv (fuel + 2) (oneInstr (.localDrop n)) 0 ctx heap
        stack lvars [] none none =
      .ok (ctx, heap, stack, lvars.drop n.toNat)) := by
  constructor
  · simp [execLoop, oneInstr, Program.instructions, stackPop, liftE,
      stackPush, foldl_push_eq]
  · intro h1 h2
    simp [execLoop, oneInstr, Program.instructions, stackDrop, liftE,
      h1, h2]

/-- C8 witness: dropping one local from a one-local stack empties it. -/
theorem exC8_amended_witness :
    execLoop emptyEnv 2 (oneInstr (.localDrop 1)) 0 baseCtx []
      [] [nullV] [] none none = .ok (baseCtx, [], [], []) :=
  (exC8_amended 0 1 nullV [] [nullV] baseCtx []).2 (by decide) (by decide)


/-- A cons-cell dict has a key iff the head binds it or the tail has it. -/
lemma dictHas_cons {α : Type} (kv : String × α) (rest : List (String × α))
    (k : String) : dictHas (kv :: rest) k = (kv.1 == k || dictHas rest k) := by
  by_cases hk : kv.1 == k <;> simp [dictHas, List.find?_cons, hk]

/-- `dictHas` agrees with membership in the key list. -/
lemma dictHas_iff {α : Type} (d : List (String × α)) (k : String) :
    dictHas d k = true ↔ k ∈ d.map Prod.fst := by
  induction d with
  | nil => simp [dictHas]
  | cons kv rest ih =>
    rw [dictHas_cons]
    simp [ih]
    exact or_congr_left eq_comm

/-- Deleting an absent key leaves the dict unchanged. -/
lemma dictDel_not_has {α : Type} (d : List (String × α)) (k : String)
    (h : dictHas d k = false) : dictDel d k = d := by
  induction d with
  | nil => rfl
  | cons kv rest ih =>
    rw [dictHas_cons] at h
    simp at h
    simp [dictDel, h.1, ih h.2]

/-- With duplicate-free keys (a real Python dict), deletion removes the
key entirely. -/
lemma dictHas_dictDel_of_nodup {α : Type} (d : List (String × α))
    (k : String) (h : (d.map Prod.fst).Nodup) :
    dictHas (dictDel d k) k = false := by
  induction d with
  | nil => rfl
  | cons kv rest ih =>
    rw [List.map_cons, List.nodup_cons] at h
    by_cases hk : kv.1 == k
    · have hkk : kv.1 = k := by simpa using hk
      simp [dictDel, hk]
      rw [← Bool.not_eq_true, dictHas_iff]
      exact hkk ▸ h.1
    · simp [dictDel, hk, dictHas_cons]
      exact ih h.2

/-- Deletion only removes entries: the key list stays a sublist. -/
lemma keys_dictDel_sublist {α : Type} (d : List (String × α)) (k : String) :
    ((dictDel d k).map Prod.fst).Sublist (d.map Prod.fst) := by
  induction d with
  | nil => simp [dictDel]
  | cons kv rest ih =>
    by_cases hk : kv.1 == k
    · simp [dictDel, hk]
    · simpa [dictDel, hk] using ih

/-- Reading back a written heap slot. -/
lemma heapGet_heapSet_self (h : Heap) (i : Nat) (x nd : NodeData)
    (hg : heapGet h i = some nd) :
    heapGet (heapSet h i x) i = some x := by
  have hlt : i < h.length := by
    by_contra hc
    rw [heapGet, List.get?_eq_getElem?, List.getElem?_eq_none
      (Nat.le_of_not_lt hc)] at hg
    exact Option.noConfusion hg
  simp [heapGet, heapSet, List.get?_eq_getElem?,
    List.getElem?_set_self', hlt]

/-- Writing one heap slot leaves the others unchanged. -/
lemma heapGet_heapSet_ne (h : Heap) (i j : Nat) (x : NodeData)
    (hne : i ≠ j) : heapGet (heapSet h j x) i = heapGet h i := by
  simp [heapGet, heapSet, List.get?_eq_getElem?,
    List.getElem?_set_ne (Ne.symm hne)]

/-- One `attributeStep` on a present node with an empty value yields the
deleted form (whether or not the attribute was present). -/
lemma attributeStep_self (nm : String) (value : Vec)
    (hv : value.length = 0) (h : Heap) (id : Nat) (nd : NodeData)
    (hg : heapGet h id = some nd) :
    attributeStep nm value h (.node id) = heapSet h id (attrDelForm nd nm) := by
  rw [attributeStep, hg]
  simp [hv]
  by_cases hhas : dictHas nd.attributes nm
  · simp [hhas, attrDelForm]
  · simp [hhas, attrDelForm,
      dictDel_not_has nd.attributes nm (by simpa using hhas)]

/-- `attributeStep` on any element other than the node `id` leaves slot
`id` unchanged (non-node elements touch nothing). -/
lemma attributeStep_keep (nm : String) (value : Vec) (h : Heap)
    (id : Nat) (o : Obj) (hne : ∀ j, o = .node j → j ≠ id) :
    heapGet (attributeStep nm value h o) id = heapGet h id := by
  match o with
  | .node j =>
    have hj : j ≠ id := hne j rfl
    rw [attributeStep]
    match hg : heapGet h j with
    | some nd2 =>
      by_cases hlen : value.length != 0 <;>
        by_cases hhas : dictHas nd2.attributes nm <;>
          simp [hlen, hhas, heapGet_heapSet_ne h id j _ (Ne.symm hj)]
    | none => simp
  | .num _ => rfl
  | .str _ => rfl
  | .func _ => rfl
  | .subprog _ => rfl
  | .builtin _ _ => rfl

/-- Folding `attributeStep` with an empty value over an object list: a node
listed in it ends in deleted form (idempotently, so duplicates are
harmless), a node not listed keeps its data. -/
lemma attributeApply_empty_node (nm : String) (value : Vec)
    (hv : value.length = 0) (os : List Obj) (id : Nat) :
    ∀ (h : Heap) (nd : NodeData),
      heapGet h id = some nd →
      (nd.attributes.map Prod.fst).Nodup →
      ((Obj.node id) ∈ os →
        heapGet (os.foldl (attributeStep nm value) h) id =
          some (attrDelForm nd nm)) ∧
      ((Obj.node id) ∉ os →
        heapGet (os.foldl (attributeStep nm value) h) id = some nd) := by
  induction os with
  | nil =>
    intro h nd hg _
    exact ⟨fun hm => absurd hm (List.not_mem_nil _), fun _ => by simpa using hg⟩
  | cons o os ih =>
    intro h nd hg hnd
    rcases Classical.em (o = Obj.node id) with ho | ho
    · subst ho
      rw [List.foldl_cons, attributeStep_self nm value hv h id nd hg]
      have hg2 : heapGet (heapSet h id (attrDelForm nd nm)) id =
          some (attrDelForm nd nm) := heapGet_heapSet_self h id _ nd hg
      have hnd2 : ((attrDelForm nd nm).attributes.map Prod.fst).Nodup :=
        List.Nodup.sublist (keys_dictDel_sublist nd.attributes nm) hnd
      have hidem : attrDelForm (attrDelForm nd nm) nm = attrDelForm nd nm := by
        simp [attrDelForm,
          dictDel_not_has (dictDel nd.attributes nm) nm
            (dictHas_dictDel_of_nodup nd.attributes nm hnd)]
      refine ⟨fun _ => ?_, fun hm => absurd (List.mem_cons_self _ _) hm⟩
      rcases ih _ _ hg2 hnd2 with ⟨hin, hout⟩
      rcases Classical.em ((Obj.node id) ∈ os) with hmem | hmem
      · rw [hin hmem, hidem]
      · exact hout hmem
    · have hkeep : heapGet (attributeStep nm value h o) id = some nd := by
        rw [attributeStep_keep nm value h id o
          (fun j hj => fun e => ho (by rw [hj, e]))]
        exact hg
      rw [List.foldl_cons]
      rcases ih _ _ hkeep hnd with ⟨hin, hout⟩
      refine ⟨fun hm => ?_, fun hm => ?_⟩
      · rcases List.mem_cons.mp hm with he | hm2
        · exact absurd he.symm ho
        · exact hin hm2
      · exact hout (fun hm2 => hm (List.mem_cons_of_mem _ hm2))

/-- C10: executing `Attribute nm` pops the value vector and rewrites the
heap through `attributeApply` without touching the context (so no error is
recorded); with an empty value, a numeric target vector leaves the heap
unchanged, every node element of an object target has its attribute map
un-shared and the attribute `nm` deleted (rather than stored empty), and
every node not an element keeps its data (as do non-node elements). -/
theorem exC10_attribute_empty_removes
    (fuel : Nat) (nm : String) (value r1 : Vec) (stack lvars : List Vec)
    (ctx : Ctx) (heap : Heap) (os : List Obj) (id : Nat) (nd : NodeData)
    (hv : value.length = 0)
    (hg : heapGet heap id = some nd)
    (hnd : (nd.attributes.map Prod.fst).Nodup) :
    (execLoop emptyEnv (fuel + 2) (oneInstr (.attribute nm)) 0 ctx heap
      (value :: r1 :: stack) lvars [] none none =
      .ok (ctx, attributeApply heap r1 nm value, r1 :: stack, lvars)) ∧
    (∀ xs, attributeApply heap (.nums xs) nm value = heap) ∧
    ((Obj.node id) ∈ os →
      heapGet (attributeApply heap (.objs os) nm value) id =
        some { nd with attributesShared := false, attributes := dictDel nd.attributes nm }) ∧
    ((Obj.node id) ∉ os →
      heapGet (attributeApply heap (.objs os) nm value) id = some nd) := by
  refine ⟨?_, fun xs => rfl, ?_, ?_⟩
  · simp [execLoop, oneInstr, Program.instructions, stackPop, stackPeek,
      liftE]
  · intro hm
    have := (attributeApply_empty_node nm value hv os id heap nd hg
      hnd).1 hm
    simpa [attributeApply, attrDelForm] using this
  · intro hm
    have := (attributeApply_empty_node nm value hv os id heap nd hg
      hnd).2 hm
    simpa [attributeApply] using this

/-- C10 witness: deleting attribute `a` (empty value) from the one node of
a concrete heap leaves it with no attributes and an un-shared map. -/
theorem exC10_attribute_empty_removes_witness :
    heapGet (attributeApply [exC10Node] (.objs [.node 0]) "a" nullV) 0 =
      some { kind := "n", tags := [], attributes := [],
             attributesShared := false, parent := none, children := [] } :=
  (exC10_attribute_empty_removes 0 "a" nullV (.objs [.node 0]) [] []
    baseCtx [exC10Node] [.node 0] 0 exC10Node rfl rfl
    (List.nodup_cons.mpr ⟨List.not_mem_nil _, List.nodup_nil⟩)).2.2.1
    (List.mem_singleton_self _)


/-- Flattening numeric vectors and then boxing equals flattening their
boxed elements. -/
lemma numsFlatten_toObjs (vs : List Vec) (hall : vs.all Vec.isNums = true) :
    ((vs.map fun v => match v with
      | Vec.nums xs => xs | Vec.objs _ => []).flatten).map Obj.num
      = (vs.map Vec.toObjs).flatten := by
  induction vs with
  | nil => rfl
  | cons v vs ih =>
    rw [List.all_cons, Bool.and_eq_true] at hall
    match v with
    | .nums xs => simp [Vec.toObjs, ih hall.2]
    | .objs _ => exact absurd hall.1 (by simp [Vec.isNums])

/-- A zero-length vector has no elements. -/
lemma toObjs_eq_nil_of_len_zero (v : Vec) (h : v.length = 0) :
    v.toObjs = [] := by
  match v with
  | .nums xs =>
    simp [Vec.length] at h
    simp [Vec.toObjs, h]
  | .objs xs =>
    simp [Vec.length] at h
    simp [Vec.toObjs, h]

/-- C6: for `0 ≤ m ≤ |stack|` and well-formed inputs (no empty object
vectors, which the source represents as numeric `null`), `pop_composed m`
succeeds, drops exactly the `m` popped vectors, its result's elements are
the popped vectors' elements concatenated in push order, and the result is
numerically packed exactly when all the popped vectors were; `pop_composed
0` returns `null` leaving the stack unchanged. -/
theorem exC6_pop_composed (stack : List Vec) (m : Int)
    (hm0 : 0 ≤ m) (hml : m ≤ (stack.length : Int))
    (hwf : ∀ v ∈ stack.take m.toNat, ∀ xs, v = Vec.objs xs → xs ≠ []) :
    (∃ v, pop_composed stack m = .ok (v, stack.drop m.toNat) ∧
      v.toObjs = (((stack.take m.toNat).reverse).map Vec.toObjs).flatten ∧
      v.isNums = ((stack.take m.toNat).reverse).all Vec.isNums) ∧
    pop_composed stack 0 = .ok (nullV, stack) := by
  constructor
  · by_cases h1 : m = 1
    · subst h1
      match stack with
      | [] => simp at hml
      | v :: rest =>
        refine ⟨v, ?_, ?_, ?_⟩
        · simp [pop_composed, hml]
        · simp [Int.toNat_one]
        · simp [Int.toNat_one]
    · by_cases h0 : m = 0
      · subst h0
        refine ⟨nullV, ?_, ?_, ?_⟩
        · simp [pop_composed]
        · simp [nullV, Vec.toObjs]
        · simp [nullV, Vec.isNums]
      · have hcond : (0 ≤ m ∧ m ≤ (stack.length : Int)) := ⟨hm0, hml⟩
        rw [pop_composed.eq_def]
        simp only [hcond, and_self, if_true, beq_iff_eq, h1, h0, if_false]
        set grp := (stack.take m.toNat).reverse with hgrp
        by_cases hn : ((grp.map Vec.length).sum = 0)
        · have hlen0 : ∀ v ∈ grp, v.length = 0 := by
            intro v hv
            exact List.sum_eq_zero_iff.mp hn _
              (List.mem_map_of_mem Vec.length hv)
          have hall : grp.all Vec.isNums = true := by
            rw [List.all_eq_true]
            intro v hv
            cases v with
            | nums _ => rfl
            | objs xs =>
              have hmem : Vec.objs xs ∈ stack.take m.toNat := by
                rw [hgrp] at hv
                exact List.mem_reverse.mp hv
              have hne := hwf _ hmem xs rfl
              have hl := hlen0 _ hv
              simp [Vec.length] at hl
              exact absurd hl hne
          refine ⟨nullV, ?_, ?_, ?_⟩
          · simp [hn]
          · have hfl : (grp.map Vec.toObjs).flatten = [] := by
              rw [List.flatten_eq_nil_iff]
              intro l hl
              rcases List.mem_map.mp hl with ⟨v, hv, he⟩
              rw [← he]
              exact toObjs_eq_nil_of_len_zero v (hlen0 v hv)
            rw [hfl]
            rfl
          · rw [hall]
            rfl
        · by_cases hnum : grp.all Vec.isNums
          · refine ⟨Vec.nums ((grp.map fun v => match v with
              | Vec.nums xs => xs | Vec.objs _ => []).flatten),
              ?_, ?_, ?_⟩
            · simp [hn, hnum]
            · simp only [Vec.toObjs]
              exact numsFlatten_toObjs grp hnum
            · rw [hnum]
              rfl
          · refine ⟨Vec.objs ((grp.map Vec.toObjs).flatten), ?_, ?_, ?_⟩
            · simp [hn, hnum]
            · rfl
            · simp only [Vec.isNums]
              simpa using hnum
  · simp [pop_composed]

/-- C6 witness: composing the two-vector stack `[1;2]` under `"s"` gives
the object vector `1, 2, s` (widened, since one input is non-numeric) with
the stack emptied, and `pop_composed 0` gives `null`. -/
theorem exC6_pop_composed_witness :
    (∃ v, pop_composed [Vec.objs [Obj.str "s"], Vec.nums [1, 2]] 2 =
      .ok (v, ([] : List Vec)) ∧
      v.toObjs = [Obj.num 1, Obj.num 2, Obj.str "s"] ∧
      v.isNums = false) ∧
    pop_composed [Vec.objs [Obj.str "s"], Vec.nums [1, 2]] 0 =
      .ok (nullV, [Vec.objs [Obj.str "s"], Vec.nums [1, 2]]) :=
  exC6_pop_composed [Vec.objs [Obj.str "s"], Vec.nums [1, 2]] 2
    (by decide) (by decide)
    (by rintro v hv xs rfl
        simp at hv
        subst hv
        simp)


/-- Binding a successful `Except` runs the continuation. -/
lemma exceptBind_ok {ε α β : Type} (a : α) (f : α → Except ε β) :
    (Except.ok a >>= f) = f a := rfl

/-- Binding a failed `Except` propagates the error. -/
lemma exceptBind_error {ε α β : Type} (e : ε) (f : α → Except ε β) :
    ((Except.error e : Except ε α) >>= f) = .error e := rfl

/-- `Top._compile`'s child loop produces one segment per child — the
child's compiled code followed by its glue (`topGlue`), threading locals
and the label counter. -/
lemma topCompileExprs_segs (fuel : Nat) (es : List Expression) :
    ∀ (lv0 : List String) (p0 p : Program) (lvf : List String),
      topCompileExprs fuel es lv0 p0 = .ok (p, lvf) →
      ∃ segs nlf, TopSegs es lv0 p0.nextLabel lvf nlf segs ∧
        p.instructions = p0.instructions ++ segs.flatten ∧
        p.nextLabel = nlf := by
  induction es with
  | nil =>
    intro lv0 p0 p lvf h
    simp [topCompileExprs] at h
    obtain ⟨rfl, rfl⟩ := h
    exact ⟨[], p0.nextLabel, TopSegs.nil _ _, by simp, rfl⟩
  | cons e rest ih =>
    intro lv0 p0 p lvf h
    rw [topCompileExprs] at h
    cases hc : expCompile fuel e lv0 with
    | error err =>
      rw [hc, exceptBind_error] at h
      exact absurd h (by simp)
    | ok pr =>
      obtain ⟨ep, lv1⟩ := pr
      rw [hc] at h
      simp only [exceptBind_ok] at h
      have key : ∀ p2 : Program,
          topCompileExprs fuel rest lv1 p2 = .ok (p, lvf) →
          p2.instructions = p0.instructions ++
            (ep.instructions.map (Instr.shiftLabels (p0.nextLabel - 1)) ++
              topGlue e) →
          p2.nextLabel = p0.nextLabel + ep.nextLabel - 1 →
          ∃ segs nlf, TopSegs (e :: rest) lv0 p0.nextLabel lvf nlf segs ∧
            p.instructions = p0.instructions ++ segs.flatten ∧
            p.nextLabel = nlf := by
        intro p2 h2 hinstr hnl
        obtain ⟨segs, nlf, hsegs, hpi, hpn⟩ := ih lv1 p2 p lvf h2
        rw [hnl] at hsegs
        refine ⟨(ep.instructions.map (Instr.shiftLabels (p0.nextLabel - 1))
          ++ topGlue e) :: segs, nlf,
          TopSegs.cons e rest lv0 lv1 lvf p0.nextLabel nlf ep segs fuel
            hc hsegs, ?_, hpn⟩
        rw [hpi, hinstr]
        simp
      obtain ⟨is0, lk0, nl0, pa0⟩ := p0
      obtain ⟨isE, lkE, nlE, paE⟩ := ep
      by_cases c1 : (e.isNodeModifier && e.ultimateNode.isSearch)
      · rw [if_pos c1] at h
        exact key _ h
          (by simp [Program.emit, Program.withInstructions, Program.extend,
            Program.instructions, Program.nextLabel, topGlue, c1])
          (by simp [Program.emit, Program.withInstructions, Program.extend,
            Program.nextLabel])
      · by_cases c2 : e.isLetImportFunction
        · rw [if_neg c1, if_neg (by simp [c2])] at h
          exact key _ h
            (by simp [Program.extend, Program.instructions,
              Program.nextLabel, topGlue, c1, c2])
            (by simp [Program.extend, Program.nextLabel])
        · rw [if_neg c1, if_pos (by simp [c2])] at h
          exact key _ h
            (by simp [Program.emit, Program.withInstructions, Program.extend,
              Program.instructions, Program.nextLabel, topGlue, c1, c2])
            (by simp [Program.emit, Program.withInstructions, Program.extend,
              Program.nextLabel])

/-- Replacing the instruction list replaces exactly the instruction
list. -/
lemma instructions_withInstructions (p : Program) (is : List Instr) :
    (p.withInstructions is).instructions = is := by
  obtain ⟨a, b, c, d⟩ := p
  rfl

/-- The `StoreGlobal` epilogue fold appends `LocalLoad i; StoreGlobal nm`
pairs. -/
lemma storeGlobal_foldl_instructions (l : List (Nat × String)) :
    ∀ p : Program,
      (l.foldl (fun p inm => (p.emit (.localLoad (Int.ofNat inm.1))).emit
        (.storeGlobal inm.2)) p).instructions =
      p.instructions ++ (l.flatMap fun inm =>
        [.localLoad (Int.ofNat inm.1), .storeGlobal inm.2]) := by
  induction l with
  | nil => intro p; simp
  | cons inm rest ih =>
    intro p
    rw [List.foldl_cons, ih]
    obtain ⟨is0, lk0, nl0, pa0⟩ := p
    simp [Program.emit, Program.withInstructions, Program.instructions]

/-- C7 counterexample: a `Tag` over a `Search` is a top-level child that is
none of `Let`/`Import`/`Function`/`Pragma`, yet its glue is `Drop 1`, not
`AppendRoot`; and a `Pragma` child — which this version of `Top._compile`
does not exclude — gets an `AppendRoot`. -/
theorem exC7_counter :
    topCompile 20 ⟨[.tag (.search
        (.mk (some "q") [] false false false none none)) "t",
      .pragma "p" (.literal (.nums [1]))]⟩ [] =
      .ok (.mk [.search (.mk (some "q") [] false false false none none),
        .tag "t", .drop 1,
        .literal (.nums [1]), .pragma "p", .appendRoot] false 1 none) ∧
    topGlue (.tag (.search
      (.mk (some "q") [] false false false none none)) "t") = [.drop 1] ∧
    topGlue (.pragma "p" (.literal (.nums [1]))) = [.appendRoot] :=
  ⟨rfl, rfl, rfl⟩

/-- C7 (amended): a compiled `Top` is one segment per child — the child's
code followed by `AppendRoot` for a non-`Let`/`Import`/`Function` child,
except that a node-modifier chain ending in a `Search` gets `Drop 1`
instead (and `Pragma` is not excluded in this version) — followed by the
`LocalLoad`/`StoreGlobal` pairs and final `LocalDrop` for the remaining
top-level locals. -/
theorem exC7_amended (fuel : Nat) (t : TopExpr) (p : Program)
    (h : topCompile fuel t [] = .ok p) :
    ∃ segs lvf nlf, TopSegs t.expressions [] 1 lvf nlf segs ∧
      p.instructions = segs.flatten ++ topEpilogue lvf := by
  rw [topCompile] at h
  cases hc : topCompileExprs fuel t.expressions [] Program.new with
  | error err =>
    rw [hc, exceptBind_error] at h
    exact absurd h (by simp)
  | ok pr =>
    obtain ⟨q, lvf⟩ := pr
    rw [hc, exceptBind_ok] at h
    simp only [Except.ok.injEq] at h
    obtain ⟨segs, nlf, hsegs, hqi, _⟩ :=
      topCompileExprs_segs fuel t.expressions [] Program.new q lvf hc
    refine ⟨segs, lvf, nlf, hsegs, ?_⟩
    rw [← h]
    by_cases he : lvf.isEmpty
    · rw [if_pos he, storeGlobal_foldl_instructions, hqi]
      simp [Program.instructions, Program.new, topEpilogue, he,
        List.isEmpty_iff.mp he]
    · rw [if_neg he, Program.emit, instructions_withInstructions,
        storeGlobal_foldl_instructions, hqi]
      simp [Program.instructions, Program.new, topEpilogue, he]

/-- C7 witness: the program `let x = 5; x` decomposes into its two child
segments plus the `LocalLoad 0; StoreGlobal x; LocalDrop 1` epilogue. -/
theorem exC7_amended_witness :
    ∃ segs lvf nlf,
      TopSegs [.let_ [(["x"], .literal (.nums [5]))], .name "x"]
        [] 1 lvf nlf segs ∧
      (Program.mk [.literal (.nums [5]), .localPush 1, .localLoad 0,
        .appendRoot, .localLoad 0, .storeGlobal "x", .localDrop 1]
        false 1 none).instructions = segs.flatten ++ topEpilogue lvf :=
  exC7_amended 20 ⟨[.let_ [(["x"], .literal (.nums [5]))], .name "x"]⟩
    _ rfl
/-- The peephole loop only performs the five claimed adjacent rewrites:
its output is reachable from `acc.reverse ++ rest` by `OptStep`s alone,
so every other instruction is preserved in order. -/
lemma optLoop_rewrites : ∀ (rest acc : List Instr),
    OptRewrites (acc.reverse ++ rest) (optLoop acc rest) := by
  intro rest
  induction rest with
  | nil =>
    intro acc
    simp [optLoop]
    exact Relation.ReflTransGen.refl
  | cons instr rest' ih =>
    intro acc
    match acc with
    | [] =>
      rw [optLoop]
      simpa using ih [instr]
    | last :: acc' =>
      rw [optLoop.eq_def]
      simp only []
      split
      · rename_i a b
        rw [show ((Instr.compose a :: acc').reverse ++
            Instr.compose b :: rest') =
            (acc'.reverse ++ [Instr.compose a, Instr.compose b] ++ rest')
          from by simp]
        refine Relation.ReflTransGen.head
          (OptStep.composeCompose acc'.reverse rest' a b) ?_
        have t := ih (Instr.compose (b - 1 + a) :: acc')
        rwa [show ((Instr.compose (b - 1 + a) :: acc').reverse ++ rest') =
          (acc'.reverse ++ [Instr.compose (b - 1 + a)] ++ rest')
          from by simp] at t
      · rename_i a b
        rw [show ((Instr.compose a :: acc').reverse ++
            Instr.append b :: rest') =
            (acc'.reverse ++ [Instr.compose a, Instr.append b] ++ rest')
          from by simp]
        refine Relation.ReflTransGen.head
          (OptStep.composeAppend acc'.reverse rest' a b) ?_
        have t := ih (Instr.append (b - 1 + a) :: acc')
        rwa [show ((Instr.append (b - 1 + a) :: acc').reverse ++ rest') =
          (acc'.reverse ++ [Instr.append (b - 1 + a)] ++ rest')
          from by simp] at t
      · rw [show ((Instr.mul :: acc').reverse ++ Instr.add :: rest') =
            (acc'.reverse ++ [Instr.mul, Instr.add] ++ rest')
          from by simp]
        refine Relation.ReflTransGen.head
          (OptStep.mulAddFuse acc'.reverse rest') ?_
        have t := ih (Instr.mulAdd :: acc')
        rwa [show ((Instr.mulAdd :: acc').reverse ++ rest') =
          (acc'.reverse ++ [Instr.mulAdd] ++ rest') from by simp] at t
      · rename_i v n
        by_cases hv : (v.length == 0)
        · rw [if_pos hv,
            show ((Instr.literal v :: acc').reverse ++
              Instr.append n :: rest') =
              (acc'.reverse ++ [Instr.literal v, Instr.append n] ++ rest')
            from by simp]
          exact Relation.ReflTransGen.head
            (OptStep.dropEmptyAppend acc'.reverse rest' v n
              (by simpa using hv)) (ih acc')
        · rw [if_neg hv]
          have t := ih (Instr.append n :: Instr.literal v :: acc')
          rwa [show ((Instr.append n :: Instr.literal v :: acc').reverse ++
            rest') = ((Instr.literal v :: acc').reverse ++
              Instr.append n :: rest') from by simp] at t
      · rename_i v
        by_cases hv : (v.length == 0)
        · rw [if_pos hv,
            show ((Instr.literal v :: acc').reverse ++
              Instr.appendRoot :: rest') =
              (acc'.reverse ++ [Instr.literal v, Instr.appendRoot] ++ rest')
            from by simp]
          exact Relation.ReflTransGen.head
            (OptStep.dropEmptyAppendRoot acc'.reverse rest' v
              (by simpa using hv)) (ih acc')
        · rw [if_neg hv]
          have t := ih (Instr.appendRoot :: Instr.literal v :: acc')
          rwa [show ((Instr.appendRoot :: Instr.literal v :: acc').reverse ++
            rest') = ((Instr.literal v :: acc').reverse ++
              Instr.appendRoot :: rest') from by simp] at t
      · have t := ih (instr :: last :: acc')
        rwa [show ((instr :: last :: acc').reverse ++ rest') =
          ((last :: acc').reverse ++ instr :: rest') from by simp] at t

/-- C4: `optimize` refuses a linked program with the assert message, and
on an unlinked program succeeds with an instruction list reachable from
the original by exactly the four fusion/drop rewrites (`Compose;Compose`,
`Compose;Append`, `Mul;Add`, and empty-`Literal`;`Append`/`AppendRoot`),
preserving all other instructions in order. -/
theorem exC4_optimize (p : Program) :
    (p.linked = true →
      p.optimize = .error (.assertFail "Cannot optimize a linked program")) ∧
    (p.linked = false → ∃ q, p.optimize = .ok q ∧
      OptRewrites p.instructions q.instructions) := by
  constructor
  · intro hl
    simp [Program.optimize, hl]
  · intro hl
    refine ⟨p.withInstructions (optLoop [] p.instructions), ?_, ?_⟩
    · simp [Program.optimize, hl]
    · rw [instructions_withInstructions]
      simpa using optLoop_rewrites p.instructions []

/-- C4 witness: a linked program is rejected; the unlinked program
`Mul; Add; Literal null; AppendRoot; Dup` optimises by rewrites only. -/
theorem exC4_optimize_witness :
    (Program.mk [.mul, .add, .literal nullV, .appendRoot, .dup]
      true 1 none).optimize =
      .error (.assertFail "Cannot optimize a linked program") ∧
    ∃ q, (Program.mk [.mul, .add, .literal nullV, .appendRoot, .dup]
      false 1 none).optimize = .ok q ∧
      OptRewrites [.mul, .add, .literal nullV, .appendRoot, .dup]
        q.instructions :=
  ⟨(exC4_optimize _).1 rfl, (exC4_optimize _).2 rfl⟩

/-- Dict lookup on a cons cell. -/
lemma dictGet_cons {α : Type} (kv : String × α) (rest : List (String × α))
    (k : String) :
    dictGet (kv :: rest) k =
      if kv.1 == k then some kv.2 else dictGet rest k := by
  by_cases hk : kv.1 == k <;> simp [dictGet, List.find?_cons, hk]

/-- A key not among the keys is absent. -/
lemma dictGet_eq_none_of_not_mem {α : Type} (d : List (String × α))
    (k : String) (h : k ∉ d.map Prod.fst) : dictGet d k = none := by
  induction d with
  | nil => rfl
  | cons kv rest ih =>
    rw [List.map_cons, List.mem_cons, not_or] at h
    rw [dictGet_cons, if_neg (by simpa using fun e => h.1 e.symm)]
    exact ih h.2

/-- Lookup after a store: the stored key reads the new value, any other
key is unaffected. -/
lemma dictGet_dictSet {α : Type} (d : List (String × α)) (k k' : String)
    (v : α) :
    dictGet (dictSet d k v) k' =
      if k == k' then some v else dictGet d k' := by
  induction d with
  | nil =>
    by_cases hk : k == k' <;> simp [dictSet, dictGet, List.find?, hk]
  | cons kv rest ih =>
    rw [dictSet]
    by_cases h1 : (kv.1 == k)
    · rw [if_pos h1]
      have h1' : kv.1 = k := by simpa using h1
      simp only [dictGet_cons, h1']
      by_cases h2 : (k == k') <;> simp [h2]
    · rw [if_neg h1]
      have h1' : ¬kv.1 = k := by simpa using h1
      simp only [dictGet_cons, ih]
      by_cases h2 : kv.1 == k'
      · have h2' : kv.1 = k' := by simpa using h2
        have hne : ¬(k == k') = true := by
          simp only [beq_iff_eq]
          intro e
          exact h1' (by rw [h2', e])
        simp [h2, hne]
      · simp [h2]

/-- Lookup after `dict.update` with duplicate-free keys: the updating
dict wins where it binds the key, otherwise the original is read. -/
lemma dictGet_dictUpdate {α : Type} (e : List (String × α)) :
    ∀ (d : List (String × α)) (k : String),
      (e.map Prod.fst).Nodup →
      dictGet (dictUpdate d e) k =
        match dictGet e k with
        | some v => some v
        | none => dictGet d k := by
  induction e with
  | nil => intro d k _; rfl
  | cons kv rest ih =>
    intro d k h
    rw [List.map_cons, List.nodup_cons] at h
    rw [dictUpdate, List.foldl_cons]
    have : rest.foldl (fun acc kv => dictSet acc kv.1 kv.2)
        (dictSet d kv.1 kv.2) = dictUpdate (dictSet d kv.1 kv.2) rest := rfl
    rw [this, ih _ k h.2, dictGet_cons, dictGet_dictSet]
    by_cases h2 : kv.1 == k
    · have h2' : kv.1 = k := by simpa using h2
      rw [if_pos h2, if_pos h2,
        dictGet_eq_none_of_not_mem rest k (h2' ▸ h.1)]
    · rw [if_neg h2, if_neg h2]

/-- `all_builtins` resolves a name statically first, dynamically second:
the last `update` (the static table) takes precedence. -/
lemma dictGet_all_builtins (env : Env) (k : String)
    (hs : ((static_builtins env).map Prod.fst).Nodup)
    (hd : ((dynamic_builtins env).map Prod.fst).Nodup) :
    dictGet (all_builtins env) k =
      match dictGet (static_builtins env) k with
      | some v => some v
      | none => dictGet (dynamic_builtins env) k := by
  rw [all_builtins, dictGet_dictUpdate _ _ _ hs]
  cases h2 : dictGet (static_builtins env) k with
  | some v => rfl
  | none =>
    rw [dictGet_dictUpdate _ _ _ hd]
    cases h3 : dictGet (dynamic_builtins env) k with
    | some v => rfl
    | none => rfl

/-- C3: the `Name` instruction resolves through program variables, then
builtins with static builtins beating dynamic ones, then the optional node
scope (`nameResolve` coincides with the spec-ordered `resolveNameSpec`); a
resolved name pushes its value with the context untouched, an unresolved
name pushes `null` and records the `Unbound name` error, and in both cases
execution continues to completion. -/
theorem exC3_name_resolution (env : Env)
    (hs : ((static_builtins env).map Prod.fst).Nodup)
    (hd : ((dynamic_builtins env).map Prod.fst).Nodup)
    (fuel : Nat) (ctx : Ctx) (heap : Heap) (stack lvars : List Vec)
    (ns : Option Nat) (s : String) :
    nameResolve env ctx.vars heap ns s =
      resolveNameSpec env ctx.vars heap ns s ∧
    (∀ v, resolveNameSpec env ctx.vars heap ns s = some v →
      execLoop env (fuel + 2) (oneInstr (.name s)) 0 ctx heap stack lvars
        [] none ns = .ok (ctx, heap, v :: stack, lvars)) ∧
    (resolveNameSpec env ctx.vars heap ns s = none →
      execLoop env (fuel + 2) (oneInstr (.name s)) 0 ctx heap stack lvars
        [] none ns =
      .ok ({ ctx with errors := (setAdd ctx.errors
          ("Unbound name '" ++ s ++ "'")) }, heap, nullV :: stack,
        lvars)) := by
  have heq : nameResolve env ctx.vars heap ns s =
      resolveNameSpec env ctx.vars heap ns s := by
    rw [nameResolve.eq_def, resolveNameSpec.eq_def, dictGet_all_builtins env s hs hd]
    cases h1 : dictGet ctx.vars s
    · cases h2 : dictGet (static_builtins env) s <;> rfl
    · rfl
  refine ⟨heq, ?_, ?_⟩
  · intro v hv
    have hn : nameResolve env ctx.vars heap ns s = some v := heq ▸ hv
    simp [execLoop, oneInstr, Program.instructions, stackPush, hn]
  · intro hv
    have hn : nameResolve env ctx.vars heap ns s = none := heq ▸ hv
    simp [execLoop, oneInstr, Program.instructions, stackPush, hn]

/-- C3 witness: `true` resolves to the static builtin; `zzz` pushes `null`
and records the unbound-name error. -/
theorem exC3_name_resolution_witness :
    execLoop emptyEnv 2 (oneInstr (.name "true")) 0 baseCtx [] [] []
      [] none none = .ok (baseCtx, [], [trueV], []) ∧
    execLoop emptyEnv 2 (oneInstr (.name "zzz")) 0 baseCtx [] [] []
      [] none none =
      .ok ({ baseCtx with errors := ["Unbound name 'zzz'"] }, [],
        [nullV], []) :=
  ⟨(exC3_name_resolution emptyEnv (by decide) (by decide) 0 baseCtx []
      [] [] none "true").2.1 trueV rfl,
   (exC3_name_resolution emptyEnv (by decide) (by decide) 0 baseCtx []
      [] [] none "zzz").2.2 rfl⟩

/-- C2: a user-function call that completes leaves the value stack exactly
one entry taller than before the call; the return-site asserts make any
violation a fatal `assertFail` (`Bad function return stack` for a wrong
stack delta, `Bad function return lvars` for a locals stack not back at
its post-binding height before the parameter locals are popped), never a
recorded error. -/
theorem exC2_call_stack_discipline (env : Env) (fuel : Nat) (ctx : Ctx)
    (heap : Heap) (stack : List Vec) (parameters : List String)
    (defaults : List Vec) (program : Program) (lvars0 : List Vec)
    (rootPath : Option String) (args : List Vec)
    (kwargs : Option (List (String × Vec))) :
    (∀ ctx' heap' stack',
      execFuncCall env (fuel + 1) ctx heap stack parameters defaults
        program lvars0 rootPath args kwargs = .ok (ctx', heap', stack') →
      stack'.length = stack.length + 1) ∧
    (∀ ctxB heapB stackB lvarsB,
      program.linked = true →
      execLoop env fuel program 0 { ctx with path := rootPath } heap stack
        (bindParams parameters defaults args kwargs lvars0) [] none none =
        .ok (ctxB, heapB, stackB, lvarsB) →
      (stackB.length ≠ stack.length + 1 →
        execFuncCall env (fuel + 1) ctx heap stack parameters defaults
          program lvars0 rootPath args kwargs =
          .error (.assertFail "Bad function return stack")) ∧
      (stackB.length = stack.length + 1 →
        lvarsB.length ≠ (bindParams parameters defaults args kwargs
          lvars0).length →
        execFuncCall env (fuel + 1) ctx heap stack parameters defaults
          program lvars0 rootPath args kwargs =
          .error (.assertFail "Bad function return lvars"))) := by
  constructor
  · intro ctx' heap' stack' h
    rw [execFuncCall] at h
    split at h
    · exact absurd h (by simp)
    · split at h
      · exact absurd h (by simp)
      · split at h
        · exact absurd h (by simp)
        · split at h
          · exact absurd h (by simp)
          · split at h
            · exact absurd h (by simp)
            · rename_i hs hv x u hd
              simp at h
              rw [← h.2.2]
              exact not_ne_iff.mp hs
  · intro ctxB heapB stackB lvarsB hl hb
    constructor
    · intro hs
      rw [execFuncCall, if_neg (by simp [hl]), hb]
      simp [hs]
    · intro hs hv
      rw [execFuncCall, if_neg (by simp [hl]), hb]
      simp [hs, hv]

/-- C2 witness: a body pushing one literal returns a one-taller stack; a
body that instead pops the caller's stack dies on the return assert. -/
theorem exC2_call_stack_discipline_witness :
    ([Vec.nums [7]] : List Vec).length = ([] : List Vec).length + 1 ∧
    execFuncCall emptyEnv 3 baseCtx [] [nullV] [] []
      (Program.mk [.drop 1] true 1 none) [] none [] none =
      .error (.assertFail "Bad function return stack") :=
  ⟨(exC2_call_stack_discipline emptyEnv 2 baseCtx [] [] [] []
      (Program.mk [.literal (.nums [7])] true 1 none) [] none []
      none).1 baseCtx [] [Vec.nums [7]] rfl,
   ((exC2_call_stack_discipline emptyEnv 2 baseCtx [] [nullV] [] []
      (Program.mk [.drop 1] true 1 none) [] none []
      none).2 baseCtx [] [] [] rfl rfl).1 (by decide)⟩

/-- Pushing `null` once per name leaves that many `null`s on top. -/
lemma foldl_push_null (names : List String) (lvars : List Vec) :
    names.foldl (fun lv _ => stackPush lv nullV) lvars =
      List.replicate names.length nullV ++ lvars := by
  induction names generalizing lvars with
  | nil => rfl
  | cons n rest ih =>
    rw [List.foldl_cons, ih]
    rw [show (stackPush lvars nullV) = nullV :: lvars from rfl,
      List.append_cons, ← List.replicate_succ']
    rfl

/-- C5: an import whose target's path equals the current context's path or
an ancestor's records `Circular import of <filename>` and yields no
variables; the `Import` instruction then records the unable-to-import
error and binds every requested name to `null` on the locals stack; in the
mutual-import scenario of modules `A` and `B` the run completes with
exactly one error matching "Circular import" and the imported `y` bound to
`null`. -/
theorem exC5_circular_import
    (env : Env) (fuel : Nat) (ctx : Ctx) (heap : Heap) (filename : String)
    (program : Program) (names : List String) (stack lvars : List Vec)
    (hload : env.loader filename ctx.path = some program)
    (hcirc : (ctx.path :: ctx.parentPaths).contains program.path = true) :
    import_module env (fuel + 1) ctx heap filename =
      .ok ({ ctx with errors := (setAdd ctx.errors
        ("Circular import of " ++ filename)) }, heap, none) ∧
    (∀ fv : Vec, fv.as_string = filename →
      execLoop env (fuel + 2) (oneInstr (.importNames names)) 0 ctx heap
        (fv :: stack) lvars [] none none =
        .ok ({ ctx with errors := (setAdd (setAdd ctx.errors
            ("Circular import of " ++ filename))
            ("Unable to import from '" ++ filename ++ "'")) }, heap,
          stack,
          List.replicate names.length nullV ++ lvars)) ∧
    exImportCtx.errors.filter matchesCircular =
      ["Circular import of A"] ∧
    dictGet exImportCtx.vars "y" = some nullV ∧
    (exImportRun matches .ok _) = true := by
  have himp : import_module env (fuel + 1) ctx heap filename =
      .ok ({ ctx with errors := (setAdd ctx.errors
        ("Circular import of " ++ filename)) }, heap, none) := by
    rw [import_module, hload]
    simp only [hcirc, if_true]
  refine ⟨himp, ?_, by rfl, by rfl, by rfl⟩
  intro fv hfv
  rw [execLoop]
  simp only [oneInstr, Program.instructions]
  simp [stackPop, liftE, hfv, himp, foldl_push_null]
  rw [execLoop]
  simp [oneInstr, Program.instructions]

/-- C5 witness: importing `A` from inside `B` (itself imported from `A`)
records exactly the circular-import error and returns no variables. -/
theorem exC5_circular_import_witness :
    import_module exImportEnv 5 exC5Ctx [] "A" =
      .ok ({ exC5Ctx with errors := ["Circular import of A"] },
        [], none) :=
  (exC5_circular_import exImportEnv 4 exC5Ctx [] "A" exModAL [] [] []
    rfl rfl).1
